import Mathlib

/-!
Shallow embedding of the OpSy scheduler core (Scheduler.cpp / Scheduler.hpp,
Task.hpp / Task.cpp, ConditionVariable.cpp, PriorityMutex.cpp).

Tasks and condition variables are identified by numeric ids; a `SchedState`
mirrors the static members of `Scheduler`.  Machine integers are modelled by
`Nat` (uint8 priorities, the saved r0 word) and `Int` (the millisecond time
base: `duration` is int32, `time_point` is int64; only signs and orderings of
in-range values matter to the claims below, so overflow is not modelled).
Hardware effects (BASEPRI, PRIMASK, PendSV) are modelled as explicit state
fields where the claims mention them; tracing hooks (`Hooks::...`) are empty
by default and are omitted.
-/

namespace OpSy

abbrev TaskId := Nat
abbrev CvId := Nat
abbrev MutexId := Nat

/-- Model of `std::cv_status::no_timeout` (value 0, ConditionVariable.hpp). -/
def cvNoTimeout : Nat := 0

/-- Model of `std::cv_status::timeout` (value 1, ConditionVariable.hpp). -/
def cvTimeout : Nat := 1

/-- Model of `TaskControlBlock` (Task.hpp): the fields the scheduler core
reads and writes.  `returnValue` models the r0 word of the saved exception
frame written by `TaskControlBlock::setReturnValue`; stack contents and the
entry callback are not modelled. -/
structure TCB where
  priority : Nat := 0xFF
  lastStarted : Int := 0
  waitUntil : Option Int := none
  waiting : Option CvId := none
  pendingMutex : Option MutexId := none
  active : Bool := false
  returnValue : Nat := 0
deriving Repr, DecidableEq

/-- Model of `TaskControlBlock::priorityIsLower` (Task.hpp, lines 278-285):
true when `left` is more important than `right` — lower numeric priority,
ties broken by the older `m_lastStarted`. -/
def priorityIsLower (left right : TCB) : Bool :=
  if left.priority > right.priority then false
  else if left.priority < right.priority then true
  else left.lastStarted < right.lastStarted

/-- Model of `EmbeddedList::insertWhen` (Task.hpp, lines 1341-1362): insert
`item` in front of the first element for which `pred item elem` holds
(scanning with `previous`/`current` in the source walks to the same spot),
or at the end when there is none. -/
def insertWhen (pred : α → α → Bool) (item : α) : List α → List α
  | [] => [item]
  | x :: xs => if pred item x then item :: x :: xs else x :: insertWhen pred item xs

/-- Model of the static members of `Scheduler` (Scheduler.hpp / Scheduler.cpp).
The three intrusive lists hold task ids; `tcbs` gives each task's control
block; `cvWaiting` gives each condition variable's waiting list
(`ConditionVariable::m_waitingList`).  `pendSvPending` models the PendSV
pending bit set by `CortexM::triggerPendSv`. -/
structure SchedState where
  isStarted : Bool := false
  ticks : Int := 0
  allTasks : List TaskId := []
  timeouts : List TaskId := []
  ready : List TaskId := []
  idling : Bool := false
  mayNeedSwitch : Bool := false
  criticalSection : Bool := false
  previousTask : Option TaskId := none
  currentTask : Option TaskId := none
  nextTask : Option TaskId := none
  pendSvPending : Bool := false
  tcbs : TaskId → TCB := fun _ => {}
  cvWaiting : CvId → List TaskId := fun _ => []

/-- Updates the control block of one task. -/
def updTcb (s : SchedState) (t : TaskId) (f : TCB → TCB) : SchedState :=
  { s with tcbs := fun u => if u = t then f (s.tcbs u) else s.tcbs u }

/-- Updates the waiting list of one condition variable. -/
def updCv (s : SchedState) (cv : CvId) (f : List TaskId → List TaskId) : SchedState :=
  { s with cvWaiting := fun c => if c = cv then f (s.cvWaiting c) else s.cvWaiting c }

/-- The ready-queue / waiting-list comparator on task ids: lifts
`TaskControlBlock::priorityIsLower` through the control blocks. -/
def cmpReady (s : SchedState) (a b : TaskId) : Bool :=
  priorityIsLower (s.tcbs a) (s.tcbs b)

/-- Model of `Scheduler::wakeupAfter` (Scheduler.hpp, timeout-queue
comparator): earlier `m_waitUntil` first, `value_or(Startup)` is `getD 0`. -/
def wakeupAfter (s : SchedState) (a b : TaskId) : Bool :=
  ((s.tcbs a).waitUntil.getD 0) < ((s.tcbs b).waitUntil.getD 0)

/-- First block of `Scheduler::doSwitch` (Scheduler.cpp, lines 66-72): a
non-null `s_nextTask` is re-inserted into the ready queue in sorted order
and cleared. -/
def insertNext (s : SchedState) : SchedState :=
  match s.nextTask with
  | some n => { s with ready := insertWhen (cmpReady s) n s.ready, nextTask := none }
  | none => s

/-- Second block of `Scheduler::doSwitch` (Scheduler.cpp, lines 76-80): a
non-null `s_currentTask` is re-inserted into the ready queue in sorted order
and cleared. -/
def insertCurrent (s : SchedState) : SchedState :=
  match s.currentTask with
  | some c => { s with ready := insertWhen (cmpReady s) c s.ready, currentTask := none }
  | none => s

/-- Final block of `Scheduler::doSwitch` (Scheduler.cpp, lines 82-103):
an empty ready queue triggers PendSV and returns true; otherwise the head is
popped into `s_nextTask`, and when it is the captured `current` task it is
restored as current with no switch (false), else PendSV is triggered
(true). -/
def doSwitchPick (s : SchedState) (current : Option TaskId) : SchedState × Bool :=
  match s.ready with
  | [] => ({ s with pendSvPending := true }, true)
  | head :: rest =>
    if some head = current then
      ({ s with ready := rest, currentTask := some head, nextTask := none }, false)
    else
      ({ s with ready := rest, nextTask := some head, pendSvPending := true }, true)

/-- Model of `Scheduler::doSwitch` (Scheduler.cpp, lines 55-104), as the
sequence of its three blocks; `const auto current = s_currentTask` is read
after the next-task re-insertion, exactly as in the source.  The source
asserts `s_isStarted` and `(s_currentTask != nullptr) || !s_criticalSection`;
the Bool result is the value returned to the caller. -/
def doSwitch (s : SchedState) : SchedState × Bool :=
  if s.criticalSection then
    ({ s with mayNeedSwitch := true }, false)
  else
    doSwitchPick (insertCurrent (insertNext s)) (insertNext s).currentTask

/-- Body of `Scheduler::wakeUp` before its final `doSwitch` (Scheduler.cpp,
lines 126-136): the task leaves the condition variable's waiting list with
`m_waiting` cleared and `no_timeout` written to its saved r0, its timeout
entry (if any) is cancelled, and it is inserted into the ready queue. -/
def wakeUpPrep (s : SchedState) (t : TaskId) (cv : CvId) : SchedState :=
  let s1 := updCv s cv (fun l => l.erase t)
  let s2 := updTcb s1 t (fun b => { b with waiting := none, returnValue := cvNoTimeout })
  let s3 :=
    if (s2.tcbs t).waitUntil.isSome then
      { updTcb s2 t (fun b => { b with waitUntil := none }) with timeouts := s2.timeouts.erase t }
    else s2
  { s3 with ready := insertWhen (cmpReady s3) t s3.ready }

/-- Model of `Scheduler::wakeUp` (Scheduler.cpp, lines 121-139).  The source
asserts `task.m_waiting == &condition`; BASEPRI save/restore around the body
is hardware-only.  The `doSwitch` result is discarded by the source. -/
def wakeUp (s : SchedState) (t : TaskId) (cv : CvId) : SchedState :=
  (doSwitch (wakeUpPrep s t cv)).1

/-- Model of `Scheduler::triggerSoftSwitch` (Scheduler.hpp): clears
`s_mayNeedSwitch` and runs `doSwitch` under the service-call BASEPRI mask. -/
def triggerSoftSwitch (s : SchedState) : SchedState :=
  (doSwitch { s with mayNeedSwitch := false }).1

/-- Model of `Scheduler::criticalSectionEnd` (Scheduler.hpp): asserts the
critical section is active, leaves it, and performs a deferred switch when
one was requested. -/
def criticalSectionEnd (s : SchedState) : SchedState :=
  let s1 := { s with criticalSection := false }
  if s1.mayNeedSwitch then triggerSoftSwitch s1 else s1

/-- Model of `Scheduler::criticalSection()` (Scheduler.hpp): the Bool is the
validity of the returned `CriticalSection` handle. -/
def csAcquire (s : SchedState) : SchedState × Bool :=
  if s.criticalSection then (s, false) else ({ s with criticalSection := true }, true)

/-- Model of dropping a `CriticalSection` handle (CriticalSection.hpp
destructor): a valid handle ends the critical section, an invalid one is a
no-op. -/
def csRelease (s : SchedState) (valid : Bool) : SchedState :=
  if valid then criticalSectionEnd s else s

/-- One iteration of the systick drain loop (Scheduler.hpp, lines 360-375)
applied to the head task `t` of the timeout queue `t :: rest`: the head is
popped, `m_waitUntil` is cleared, a CV-waiting task is removed from its
condition variable's list with `timeout` written to its saved r0 (the source
does not clear `m_waiting` here), and the task is inserted into the ready
queue. -/
def drainStep (s : SchedState) (t : TaskId) (rest : List TaskId) : SchedState :=
  let s1 := { s with timeouts := rest }
  let s2 := updTcb s1 t (fun b => { b with waitUntil := none })
  let s3 :=
    match (s2.tcbs t).waiting with
    | some cv => updTcb (updCv s2 cv (fun l => l.erase t)) t
        (fun b => { b with returnValue := cvTimeout })
    | none => s2
  { s3 with ready := insertWhen (cmpReady s3) t s3.ready }

/-- Model of the drain loop of `Scheduler::SystickHandler` (Scheduler.hpp):
pops the timeout-queue head while its deadline is at or before `s_ticks`;
each popped task gets `m_waitUntil` cleared, is removed from its condition
variable's waiting list with `timeout` written to its saved r0 when it was
also CV-waiting, and is inserted into the ready queue.  The source reads
`m_waitUntil.value()` under an assert that it is present; the model stops
the drain when it is absent (unreachable under the timeout-queue invariant).
`dirty` records whether any task was promoted. -/
def systickDrain (s : SchedState) (dirty : Bool) : SchedState × Bool :=
  match hl : s.timeouts with
  | [] => (s, dirty)
  | t :: rest =>
    match (s.tcbs t).waitUntil with
    | none => (s, dirty)
    | some d =>
      if d ≤ s.ticks then systickDrain (drainStep s t rest) true
      else (s, dirty)
termination_by s.timeouts.length
decreasing_by
  simp only [drainStep, updTcb, updCv, hl]
  split <;> simp

/-- Model of `Scheduler::SystickHandler` (Scheduler.hpp, lines 352-381):
advances `s_ticks` by one millisecond, drains due timeouts, and calls
`doSwitch` exactly when the drain promoted at least one task.  The Bool is
the value handed to `Hooks::exitSystick`. -/
def systickHandler (s : SchedState) : SchedState × Bool :=
  let s0 := { s with ticks := s.ticks + 1 }
  let r := systickDrain s0 false
  if r.2 then doSwitch r.1 else (r.1, false)

/-- Body of the active-task branch of the `Terminate` service call
(Scheduler.cpp, lines 231-246): the `exchange` has written false to
`m_active`, the task leaves the all-tasks list, its timeout entry (if any)
is cancelled, and it is removed from its condition variable's waiting list
(if any) with `m_waiting` cleared. -/
def terminatePrep (s : SchedState) (t : TaskId) : SchedState :=
  let s1 := updTcb s t (fun b => { b with active := false })
  let s2 := { s1 with allTasks := s1.allTasks.erase t }
  let s3 :=
    if (s2.tcbs t).waitUntil.isSome then
      updTcb { s2 with timeouts := s2.timeouts.erase t } t (fun b => { b with waitUntil := none })
    else s2
  match (s3.tcbs t).waiting with
  | some cv => updTcb (updCv s3 cv (fun l => l.erase t)) t (fun b => { b with waiting := none })
  | none => s3

/-- Model of the `Terminate` case of `Scheduler::serviceCallHandler`
(Scheduler.cpp, lines 226-256).  `m_active.exchange(false)` writes false and
aborts when it was already false (no visible change); when the task was the
current one the source asserts no critical section, clears the previous and
current task pointers and calls `doSwitch`.  The Bool is the handler's
`taskSwitch`. -/
def serviceTerminate (s : SchedState) (t : TaskId) : SchedState × Bool :=
  if (s.tcbs t).active = false then (s, false)
  else
    let s4 := terminatePrep s t
    if s4.currentTask = some t then
      doSwitch { s4 with previousTask := none, currentTask := none }
    else (s4, false)

/-- Body of the `Sleep` service call for current task `c` (Scheduler.cpp,
lines 264-269): `m_waitUntil` becomes `s_ticks + (delta + 1)`, the task is
inserted into the timeout queue in deadline order, and the current task is
cleared before the final `doSwitch`. -/
def sleepPrep (s : SchedState) (c : TaskId) (delta : Int) : SchedState :=
  let s1 := updTcb s c (fun b => { b with waitUntil := some (s.ticks + (delta + 1)) })
  let s2 := { s1 with timeouts := insertWhen (wakeupAfter s1) c s1.timeouts }
  { s2 with currentTask := none }

/-- Model of the `Sleep` case of `Scheduler::serviceCallHandler`
(Scheduler.cpp, lines 258-272): `delta` is `static_cast<int32_t>(frame->r0)`
and the handler adds one millisecond so the task waits at least the required
time.  The source asserts thread mode, no critical section, a current task,
and `delta + 1 >= 0`; the model returns unchanged when no task is current. -/
def serviceSleep (s : SchedState) (delta : Int) : SchedState × Bool :=
  match s.currentTask with
  | none => (s, false)
  | some c => doSwitch (sleepPrep s c delta)

/-- Model of the `Switch` (yield) case of `Scheduler::serviceCallHandler`
(Scheduler.cpp, lines 274-280). -/
def serviceSwitch (s : SchedState) : SchedState × Bool :=
  doSwitch s

/-- Body of the `Wait` service call for current task `c` (Scheduler.cpp,
lines 288-317): `timeout` is the int32 read from r1.  When `timeout ≥ 0` the
task gets `m_waitUntil = s_ticks + timeout` and a timeout-queue entry.  A
handed-over mutex is stored in `m_mutex` and released
(`releaseFromServiceCall` restores BASEPRI only — hardware) with the critical
section handed off to the scheduler.  The task is then queued on the
condition variable in priority order and the current task cleared. -/
def waitPrep (s : SchedState) (c : TaskId) (cv : CvId) (timeout : Int)
    (mutex : Option MutexId) : SchedState :=
  let s1 :=
    if timeout ≥ 0 then
      let s1a := updTcb s c (fun b => { b with waitUntil := some (s.ticks + timeout) })
      { s1a with timeouts := insertWhen (wakeupAfter s1a) c s1a.timeouts }
    else s
  let s2 :=
    match mutex with
    | some m =>
      let s1m := updTcb s1 c (fun b => { b with pendingMutex := some m })
      { s1m with criticalSection := false }
    | none => s1
  let s3 := updCv s2 cv (insertWhen (cmpReady s2) c)
  let s4 := updTcb s3 c (fun b => { b with waiting := some cv })
  { s4 with currentTask := none }

/-- Model of the `Wait` case of `Scheduler::serviceCallHandler`
(Scheduler.cpp, lines 282-320): the body runs for the current task and ends
in `doSwitch`.  The source asserts thread mode, a non-null condition
variable and a current task; the model returns unchanged when no task is
current. -/
def serviceWait (s : SchedState) (cv : CvId) (timeout : Int) (mutex : Option MutexId) :
    SchedState × Bool :=
  match s.currentTask with
  | none => (s, false)
  | some c => doSwitch (waitPrep s c cv timeout mutex)

/-- Model of `ConditionVariable::wait_until` (ConditionVariable.cpp, lines
124-132): the service-call timeout is the target time point minus
`Scheduler::now()`; no mutex is handed over by this overload. -/
def cvWaitUntil (s : SchedState) (cv : CvId) (tp : Int) : SchedState × Bool :=
  serviceWait s cv (tp - s.ticks) none

/-- Model of `Scheduler::start` (Scheduler.cpp, lines 19-53) as compiled in
release builds: the source asserts `!s_isStarted` (debug builds halt on a
second call), sets `s_isStarted`, performs hardware setup (exception
priorities, systick, stacks — not modelled), and returns `doSwitch()`. -/
def schedulerStart (s : SchedState) : SchedState × Bool :=
  doSwitch { s with isStarted := true }

/-- Model of `Scheduler::addTask` (Scheduler.hpp): pushes the task on the
all-tasks list, inserts it into the ready queue in priority order, and
performs a soft switch when the scheduler is already running. -/
def addTask (s : SchedState) (t : TaskId) : SchedState :=
  let s1 :=
    { s with
      allTasks := t :: s.allTasks
      ready := insertWhen (cmpReady s) t s.ready }
  if s1.isStarted then triggerSoftSwitch s1 else s1

/-- Model of `TaskControlBlock::start` (Task.cpp, lines 8-38):
`m_active.exchange(true)` makes a second start return false with no other
effect; a fresh start builds the initial stack frame (not modelled) and
registers the task with the scheduler. -/
def taskStart (s : SchedState) (t : TaskId) : SchedState × Bool :=
  if (s.tcbs t).active then (s, false)
  else
    let s1 := updTcb s t (fun b => { b with active := true })
    (addTask s1 t, true)

/-- Model of `Scheduler::updatePriority` (Scheduler.cpp, lines 141-166):
sets the priority field, then reorders whichever queue holds the task, or
asks for a switch when the task is current / next or just became the ready
head. -/
def updatePriority (s : SchedState) (t : TaskId) (p : Nat) : SchedState :=
  let s1 := updTcb s t (fun b => { b with priority := p })
  if (s1.tcbs t).active then
    if s1.currentTask = some t ∨ s1.nextTask = some t then (doSwitch s1).1
    else
      match (s1.tcbs t).waiting with
      | some cv => updCv s1 cv (fun l => insertWhen (cmpReady s1) t (l.erase t))
      | none =>
        if (s1.tcbs t).waitUntil.isSome then s1
        else
          let s2 := { s1 with ready := insertWhen (cmpReady s1) t (s1.ready.erase t) }
          if s2.ready.head? = some t then (doSwitch s2).1 else s2
  else s1

/-- Model of `ConditionVariable::notify_one` (ConditionVariable.cpp, lines
11-30) called from task context with the default (priority-less) internal
mutex: locking acquires a critical-section handle, the head waiter (if any)
is popped and woken, and the `lock_guard` unlock releases the handle, which
performs the deferred switch when one was requested. -/
def notifyOne (s : SchedState) (cv : CvId) : SchedState :=
  let a := csAcquire s
  match (a.1).cvWaiting cv with
  | [] => csRelease a.1 a.2
  | t :: rest =>
    let s2 := updCv a.1 cv (fun _ => rest)
    csRelease (wakeUp s2 t cv) a.2

/-- The waiter-draining loop of `ConditionVariable::notify_all`
(ConditionVariable.cpp, lines 42-47). -/
def notifyAllLoop (s : SchedState) (cv : CvId) : SchedState :=
  match hl : s.cvWaiting cv with
  | [] => s
  | t :: rest => notifyAllLoop (wakeUp (updCv s cv (fun _ => rest)) t cv) cv
termination_by (s.cvWaiting cv).length
decreasing_by
  have hdo : ∀ u : SchedState, ((doSwitch u).1).cvWaiting = u.cvWaiting := by
    intro u
    simp only [doSwitch, doSwitchPick, insertCurrent, insertNext]
    repeat' split
    all_goals rfl
  have hcv : ((wakeUp (updCv s cv (fun _ => rest)) t cv).cvWaiting cv) = rest.erase t := by
    simp only [wakeUp, hdo, wakeUpPrep, updTcb, updCv]
    repeat' split
    all_goals simp
  have hle : (rest.erase t).length ≤ rest.length := (List.erase_sublist t rest).length_le
  simp only [hl, List.length_cons, hcv]
  omega

/-- Model of `ConditionVariable::notify_all` (ConditionVariable.cpp, lines
32-50) called from task context with the default internal mutex. -/
def notifyAll (s : SchedState) (cv : CvId) : SchedState :=
  let a := csAcquire s
  csRelease (notifyAllLoop a.1 cv) a.2

/-- Model of `PriorityMutex` state (PriorityMutex.cpp): the configured ISR
priority, the saved previous BASEPRI, the `m_locked` flag and the validity
of the owned critical-section handle. -/
structure MutexState where
  priority : Option Nat := none
  previousLock : Nat := 0xFF
  locked : Bool := false
  csValid : Bool := false
deriving Repr, DecidableEq

/-- The hardware and scheduler context a `PriorityMutex` operates in. -/
structure MutexEnv where
  basepri : Nat := 0
  primask : Bool := false
  sched : SchedState := {}

/-- Model of `IsrPriority::maskedValue` instantiated at
`kPreemptionBits = 2` (IsrPriority.hpp): keeps the top two bits of the
8-bit priority. -/
def maskedPreempt (v : Nat) : Nat := v &&& 0xC0

/-- Model of `PriorityMutex::unlock` (PriorityMutex.cpp, lines 39-69) as
compiled in debug builds: the Bool in the result is true exactly when a
debug assert fires (halting the system).  An unlock of a mutex whose
`m_locked` flag is clear returns immediately.  A full-lock mutex (priority
0) re-enables interrupts; a priority mutex restores the saved BASEPRI,
asserting that the mask it replaced matches the mutex priority, then drops
its critical-section handle; a priority-less mutex just drops the handle. -/
def mutexUnlock (m : MutexState) (e : MutexEnv) : MutexState × MutexEnv × Bool :=
  if m.locked = false then (m, e, false)
  else
    match m.priority with
    | some p =>
      if p = 0 then
        (m, { e with primask := false }, e.primask = false)
      else
        let was := e.basepri
        let halted := decide (maskedPreempt was ≠ maskedPreempt p)
        let e1 := { e with basepri := m.previousLock }
        let e2 := if m.csValid then { e1 with sched := criticalSectionEnd e1.sched } else e1
        ({ m with csValid := false }, e2, halted)
    | none =>
      let e2 := if m.csValid then { e with sched := criticalSectionEnd e.sched } else e
      ({ m with csValid := false }, e2, false)

/-- Restatement of the `do_switch` algorithm exactly as the specification
words it, for comparison with `doSwitch` (which is translated from
Scheduler.cpp): under a critical section only `may_need_switch` is recorded;
otherwise `next_task` and then `current_task` are re-inserted into the ready
queue in sorted order and cleared, an empty ready queue requests the
pending-switch exception and yields true, and otherwise the popped head
either restores the task that was current on entry (returning false) or
becomes the next task with the exception requested (returning true). -/
def doSwitchSpec (s : SchedState) : SchedState × Bool :=
  let oldCurrent := s.currentTask
  if s.criticalSection then
    ({ s with mayNeedSwitch := true }, false)
  else
    let sA :=
      match s.nextTask with
      | some n => { s with ready := insertWhen (cmpReady s) n s.ready, nextTask := none }
      | none => s
    let sB :=
      match sA.currentTask with
      | some c => { sA with ready := insertWhen (cmpReady sA) c sA.ready, currentTask := none }
      | none => sA
    match sB.ready with
    | [] => ({ sB with pendSvPending := true }, true)
    | head :: rest =>
      if some head = oldCurrent then
        ({ sB with ready := rest, currentTask := some head, nextTask := none }, false)
      else
        ({ sB with ready := rest, nextTask := some head, pendSvPending := true }, true)

/-- The ready queue is sorted by the `priorityIsLower` comparator: no later
element is strictly more important than an earlier one. -/
def ReadySorted (s : SchedState) : Prop :=
  s.ready.Pairwise (fun a b => cmpReady s b a = false)

/-- A condition variable's waiting list is sorted by the same comparator. -/
def CvSorted (s : SchedState) (cv : CvId) : Prop :=
  (s.cvWaiting cv).Pairwise (fun a b => cmpReady s b a = false)

/-- The timeout queue is sorted by the `wakeupAfter` comparator (earliest
deadline first). -/
def TimeoutsSorted (s : SchedState) : Prop :=
  s.timeouts.Pairwise (fun a b => wakeupAfter s b a = false)

/-- The drain condition of the systick handler as a predicate over the
pre-drain state: the task's deadline (`m_waitUntil.value()`, read as
`getD 0` which agrees whenever the value is present) is at or before `now`. -/
def dueBy (s : SchedState) (now : Int) (t : TaskId) : Bool :=
  (s.tcbs t).waitUntil.getD 0 ≤ now

/-- A concrete state with one task (id 0) waiting on condition variable 0
inside a critical section, used to evaluate `wakeUp` on an input that
satisfies its preconditions. -/
def sWake : SchedState :=
  { criticalSection := true, cvWaiting := fun _ => [0], tcbs := fun _ => { waiting := some 0 } }

/-- A concrete priority mutex (priority 0x40) that nobody has locked. -/
def mUnlocked : MutexState :=
  { priority := some 0x40, previousLock := 0, locked := false, csValid := false }

/-- A concrete locked priority mutex (priority 0x40) without a
critical-section handle. -/
def mLocked : MutexState :=
  { priority := some 0x40, previousLock := 0, locked := true, csValid := false }

/-- A concrete state with two active ready tasks of distinct priorities and
no waiters, used to evaluate the ordering invariant on a concrete input. -/
def sC2 : SchedState :=
  { ready := [1, 2], tcbs := fun u => { priority := u, active := true } }

/-! Basic properties of the comparators. -/

theorem priorityIsLower_irrefl (a : TCB) : priorityIsLower a a = false := by
  simp [priorityIsLower]

theorem priorityIsLower_asymm (a b : TCB) (h : priorityIsLower a b = true) :
    priorityIsLower b a = false := by
  unfold priorityIsLower at h ⊢
  split_ifs at h ⊢ <;> simp_all <;> omega

theorem priorityIsLower_negtrans (a b c : TCB) (hab : priorityIsLower a b = false)
    (hbc : priorityIsLower b c = false) : priorityIsLower a c = false := by
  unfold priorityIsLower at hab hbc ⊢
  split_ifs at hab hbc ⊢ <;> simp_all <;> omega

theorem cmpReady_asymm (s : SchedState) (a b : TaskId) (h : cmpReady s a b = true) :
    cmpReady s b a = false :=
  priorityIsLower_asymm _ _ h

theorem cmpReady_negtrans (s : SchedState) (a b c : TaskId) (hab : cmpReady s a b = false)
    (hbc : cmpReady s b c = false) : cmpReady s a c = false :=
  priorityIsLower_negtrans _ _ _ hab hbc

theorem wakeupAfter_asymm (s : SchedState) (a b : TaskId) (h : wakeupAfter s a b = true) :
    wakeupAfter s b a = false := by
  simp only [wakeupAfter, decide_eq_true_eq, decide_eq_false_iff_not] at h ⊢
  omega

theorem wakeupAfter_negtrans (s : SchedState) (a b c : TaskId) (hab : wakeupAfter s a b = false)
    (hbc : wakeupAfter s b c = false) : wakeupAfter s a c = false := by
  simp only [wakeupAfter, decide_eq_false_iff_not] at hab hbc ⊢
  omega

/-- The ready/waiting comparator only reads the priority and last-started
fields, so it is unchanged by state updates that keep those fields. -/
theorem cmpReady_congr (s1 s2 : SchedState)
    (h : ∀ t, (s2.tcbs t).priority = (s1.tcbs t).priority ∧
      (s2.tcbs t).lastStarted = (s1.tcbs t).lastStarted) :
    cmpReady s2 = cmpReady s1 := by
  funext a b
  simp [cmpReady, priorityIsLower, (h a).1, (h a).2, (h b).1, (h b).2]

/-! Properties of the ordered insertion. -/

theorem self_mem_insertWhen (pred : α → α → Bool) (x : α) (l : List α) :
    x ∈ insertWhen pred x l := by
  induction l with
  | nil => simp [insertWhen]
  | cons a as ih =>
    simp only [insertWhen]
    split
    · exact List.mem_cons_self _ _
    · exact List.mem_cons_of_mem _ ih

theorem mem_insertWhen_of_mem (pred : α → α → Bool) (x : α) {y : α} {l : List α}
    (h : y ∈ l) : y ∈ insertWhen pred x l := by
  induction l with
  | nil => cases h
  | cons a as ih =>
    simp only [insertWhen]
    split
    · exact List.mem_cons_of_mem _ h
    · rcases List.mem_cons.mp h with rfl | hy
      · exact List.mem_cons_self _ _
      · exact List.mem_cons_of_mem _ (ih hy)

theorem mem_of_mem_insertWhen (pred : α → α → Bool) (x : α) {y : α} {l : List α}
    (h : y ∈ insertWhen pred x l) : y = x ∨ y ∈ l := by
  induction l with
  | nil => simpa [insertWhen] using h
  | cons a as ih =>
    simp only [insertWhen] at h
    split at h
    · rcases List.mem_cons.mp h with rfl | h2
      · exact Or.inl rfl
      · exact Or.inr h2
    · rcases List.mem_cons.mp h with rfl | h2
      · exact Or.inr (List.mem_cons_self _ _)
      · rcases ih h2 with rfl | h3
        · exact Or.inl rfl
        · exact Or.inr (List.mem_cons_of_mem _ h3)

/-- Ordered insertion with an asymmetric, negatively transitive comparator
preserves sortedness. -/
theorem insertWhen_pairwise (pred : α → α → Bool)
    (hasym : ∀ a b, pred a b = true → pred b a = false)
    (hneg : ∀ a b c, pred a b = false → pred b c = false → pred a c = false)
    (x : α) {l : List α} (hl : l.Pairwise (fun a b => pred b a = false)) :
    (insertWhen pred x l).Pairwise (fun a b => pred b a = false) := by
  induction l with
  | nil => simp [insertWhen, List.pairwise_singleton]
  | cons a as ih =>
    rcases List.pairwise_cons.mp hl with ⟨ha, has⟩
    simp only [insertWhen]
    split
    · rename_i hx
      refine List.pairwise_cons.mpr ⟨?_, hl⟩
      intro y hy
      rcases List.mem_cons.mp hy with rfl | hy2
      · exact hasym _ _ hx
      · exact hneg _ _ _ (ha y hy2) (hasym _ _ hx)
    · rename_i hx
      refine List.pairwise_cons.mpr ⟨?_, ih has⟩
      intro y hy
      rcases mem_of_mem_insertWhen pred x hy with rfl | hy2
      · simpa using hx
      · exact ha y hy2

/-! Frame properties of the three blocks of `doSwitch`, and of `doSwitch`
itself: none of them touches the control blocks, the timeout queue, the
condition-variable lists, the clock, or the all-tasks list. -/

theorem insertNext_frame (s : SchedState) :
    (insertNext s).tcbs = s.tcbs ∧ (insertNext s).timeouts = s.timeouts ∧
    (insertNext s).cvWaiting = s.cvWaiting ∧ (insertNext s).ticks = s.ticks ∧
    (insertNext s).allTasks = s.allTasks ∧
    (insertNext s).criticalSection = s.criticalSection ∧
    (insertNext s).currentTask = s.currentTask ∧
    (insertNext s).isStarted = s.isStarted := by
  unfold insertNext
  cases s.nextTask <;> simp

theorem insertCurrent_frame (s : SchedState) :
    (insertCurrent s).tcbs = s.tcbs ∧ (insertCurrent s).timeouts = s.timeouts ∧
    (insertCurrent s).cvWaiting = s.cvWaiting ∧ (insertCurrent s).ticks = s.ticks ∧
    (insertCurrent s).allTasks = s.allTasks ∧
    (insertCurrent s).criticalSection = s.criticalSection ∧
    (insertCurrent s).nextTask = s.nextTask ∧
    (insertCurrent s).isStarted = s.isStarted := by
  unfold insertCurrent
  cases s.currentTask <;> simp

theorem doSwitchPick_frame (s : SchedState) (current : Option TaskId) :
    ((doSwitchPick s current).1).tcbs = s.tcbs ∧
    ((doSwitchPick s current).1).timeouts = s.timeouts ∧
    ((doSwitchPick s current).1).cvWaiting = s.cvWaiting ∧
    ((doSwitchPick s current).1).ticks = s.ticks ∧
    ((doSwitchPick s current).1).allTasks = s.allTasks ∧
    ((doSwitchPick s current).1).criticalSection = s.criticalSection ∧
    ((doSwitchPick s current).1).isStarted = s.isStarted := by
  unfold doSwitchPick
  rcases hr : s.ready with _ | ⟨head, rest⟩
  · simp [hr]
  · simp only [hr]
    split <;> simp

theorem doSwitch_tcbs (s : SchedState) : ((doSwitch s).1).tcbs = s.tcbs := by
  unfold doSwitch
  split
  · rfl
  · rw [(doSwitchPick_frame _ _).1, (insertCurrent_frame _).1, (insertNext_frame _).1]

theorem doSwitch_timeouts (s : SchedState) : ((doSwitch s).1).timeouts = s.timeouts := by
  unfold doSwitch
  split
  · rfl
  · rw [(doSwitchPick_frame _ _).2.1, (insertCurrent_frame _).2.1, (insertNext_frame _).2.1]

theorem doSwitch_cvWaiting (s : SchedState) : ((doSwitch s).1).cvWaiting = s.cvWaiting := by
  unfold doSwitch
  split
  · rfl
  · rw [(doSwitchPick_frame _ _).2.2.1, (insertCurrent_frame _).2.2.1,
      (insertNext_frame _).2.2.1]

theorem doSwitch_ticks (s : SchedState) : ((doSwitch s).1).ticks = s.ticks := by
  unfold doSwitch
  split
  · rfl
  · rw [(doSwitchPick_frame _ _).2.2.2.1, (insertCurrent_frame _).2.2.2.1,
      (insertNext_frame _).2.2.2.1]

theorem doSwitch_allTasks (s : SchedState) : ((doSwitch s).1).allTasks = s.allTasks := by
  unfold doSwitch
  split
  · rfl
  · rw [(doSwitchPick_frame _ _).2.2.2.2.1, (insertCurrent_frame _).2.2.2.2.1,
      (insertNext_frame _).2.2.2.2.1]

theorem doSwitch_criticalSection (s : SchedState) :
    ((doSwitch s).1).criticalSection = s.criticalSection := by
  unfold doSwitch
  split
  · rfl
  · rw [(doSwitchPick_frame _ _).2.2.2.2.2.1, (insertCurrent_frame _).2.2.2.2.2.1,
      (insertNext_frame _).2.2.2.2.2.1]

theorem doSwitch_isStarted (s : SchedState) : ((doSwitch s).1).isStarted = s.isStarted := by
  unfold doSwitch
  split
  · rfl
  · rw [(doSwitchPick_frame _ _).2.2.2.2.2.2, (insertCurrent_frame _).2.2.2.2.2.2.2,
      (insertNext_frame _).2.2.2.2.2.2.2]

/-- Under an active critical section `doSwitch` only records the deferred
request. -/
theorem doSwitch_of_criticalSection (s : SchedState) (h : s.criticalSection = true) :
    doSwitch s = ({ s with mayNeedSwitch := true }, false) := by
  simp [doSwitch, h]

theorem insertNext_ready_mem (s : SchedState) (t : TaskId) (h : t ∈ s.ready) :
    t ∈ (insertNext s).ready := by
  unfold insertNext
  cases s.nextTask <;> simp [mem_insertWhen_of_mem _ _ h, h]

theorem insertCurrent_ready_mem (s : SchedState) (t : TaskId) (h : t ∈ s.ready) :
    t ∈ (insertCurrent s).ready := by
  unfold insertCurrent
  cases s.currentTask <;> simp [mem_insertWhen_of_mem _ _ h, h]

theorem doSwitchPick_ready_mem (s : SchedState) (current : Option TaskId) (t : TaskId)
    (h : t ∈ s.ready) :
    t ∈ ((doSwitchPick s current).1).ready ∨
      ((doSwitchPick s current).1).nextTask = some t ∨
      ((doSwitchPick s current).1).currentTask = some t := by
  unfold doSwitchPick
  rcases hr : s.ready with _ | ⟨head, rest⟩
  · rw [hr] at h
    cases h
  · rw [hr] at h
    simp only [hr]
    rcases List.mem_cons.mp h with rfl | h3
    · split
      · exact Or.inr (Or.inr rfl)
      · exact Or.inr (Or.inl rfl)
    · split
      · exact Or.inl h3
      · exact Or.inl h3

/-- A task in the ready queue is, after `doSwitch`, still ready or has been
promoted to the next or current task. -/
theorem doSwitch_ready_mem (s : SchedState) (t : TaskId) (h : t ∈ s.ready) :
    t ∈ ((doSwitch s).1).ready ∨ ((doSwitch s).1).nextTask = some t ∨
      ((doSwitch s).1).currentTask = some t := by
  unfold doSwitch
  split
  · exact Or.inl h
  · exact doSwitchPick_ready_mem _ _ t
      (insertCurrent_ready_mem _ t (insertNext_ready_mem _ t h))

/-- C1. `doSwitch` follows the specified algorithm: the translation of
`Scheduler::doSwitch` coincides, on a started scheduler, with the algorithm
exactly as the specification words it (deferral under a critical section,
ordered re-insertion of next and then current, pending-switch request on an
empty ready queue, and restoration of the old current task without a switch
when it is popped back). -/
theorem doSwitch_follows_spec (s : SchedState) (h : s.isStarted = true) :
    doSwitch s = doSwitchSpec s := by
  cases hn : s.nextTask <;> cases hcu : s.currentTask <;>
    simp [doSwitch, doSwitchSpec, insertNext, insertCurrent, doSwitchPick, hn, hcu]

theorem doSwitch_follows_spec_witness :
    (({ isStarted := true } : SchedState).isStarted = true) ∧
      doSwitch { isStarted := true } = doSwitchSpec { isStarted := true } :=
  ⟨rfl, doSwitch_follows_spec { isStarted := true } rfl⟩

/-- Writing back an already-false `criticalSection` flag leaves the state
unchanged. -/
theorem setCS_false_eta (s : SchedState) (h : s.criticalSection = false) :
    { s with criticalSection := false } = s := by
  cases s
  simp_all

/-- Field computation for the body of `wakeUp`: the task leaves the waiting
list, `m_waiting` is cleared, `no_timeout` is written, the timeout entry is
cancelled exactly when present, and the task enters the ready queue; the
critical-section flag is untouched. -/
theorem wakeUpPrep_fields (s : SchedState) (t : TaskId) (cv : CvId) :
    (wakeUpPrep s t cv).criticalSection = s.criticalSection ∧
    ((wakeUpPrep s t cv).tcbs t).waiting = none ∧
    ((wakeUpPrep s t cv).tcbs t).returnValue = cvNoTimeout ∧
    ((wakeUpPrep s t cv).tcbs t).waitUntil = none ∧
    (wakeUpPrep s t cv).cvWaiting cv = (s.cvWaiting cv).erase t ∧
    t ∈ (wakeUpPrep s t cv).ready ∧
    (wakeUpPrep s t cv).timeouts =
      (if (s.tcbs t).waitUntil.isSome then s.timeouts.erase t else s.timeouts) := by
  unfold wakeUpPrep
  by_cases hw : (s.tcbs t).waitUntil.isSome <;>
    simp [updTcb, updCv, hw, self_mem_insertWhen] <;>
    simp_all [Option.not_isSome_iff_eq_none]

/-- C4. `wakeUp` — as called for each task woken by `notify_one` and
`notify_all`, which run it while holding the condition variable's internal
mutex, hence inside a critical section — leaves the task absent from the
condition variable's waiting list with `m_waiting` cleared, writes
`no_timeout` into the saved return-value slot, cancels the timeout entry and
clears `m_waitUntil` (if a timeout entry was present, and the task then no
longer sits in the timeout queue), inserts the task into the ready queue,
and calls `doSwitch` — which, inside the critical section, records the
deferred switch request. -/
theorem wakeUp_wakes (s : SchedState) (t : TaskId) (cv : CvId)
    (hwait : (s.tcbs t).waiting = some cv)
    (hcs : s.criticalSection = true)
    (hcvnd : (s.cvWaiting cv).Nodup)
    (htnd : s.timeouts.Nodup)
    (hinv : (s.tcbs t).waitUntil = none → t ∉ s.timeouts) :
    t ∉ (wakeUp s t cv).cvWaiting cv ∧
    ((wakeUp s t cv).tcbs t).waiting = none ∧
    ((wakeUp s t cv).tcbs t).returnValue = cvNoTimeout ∧
    ((wakeUp s t cv).tcbs t).waitUntil = none ∧
    t ∉ (wakeUp s t cv).timeouts ∧
    t ∈ (wakeUp s t cv).ready ∧
    (wakeUp s t cv).mayNeedSwitch = true := by
  obtain ⟨hf1, hf2, hf3, hf4, hf5, hf6, hf7⟩ := wakeUpPrep_fields s t cv
  have hpcs : (wakeUpPrep s t cv).criticalSection = true := by rw [hf1]; exact hcs
  have hr : wakeUp s t cv = { wakeUpPrep s t cv with mayNeedSwitch := true } := by
    unfold wakeUp
    rw [doSwitch_of_criticalSection _ hpcs]
  rw [hr]
  refine ⟨?_, hf2, hf3, hf4, ?_, hf6, rfl⟩
  · show t ∉ (wakeUpPrep s t cv).cvWaiting cv
    rw [hf5]
    exact hcvnd.not_mem_erase
  · show t ∉ (wakeUpPrep s t cv).timeouts
    rw [hf7]
    by_cases hw : (s.tcbs t).waitUntil.isSome
    · simpa [hw] using htnd.not_mem_erase
    · simpa [hw] using hinv (Option.not_isSome_iff_eq_none.mp hw)

theorem wakeUp_wakes_witness :
    ((sWake.tcbs 0).waiting = some 0) ∧ (0 ∉ (wakeUp sWake 0 0).cvWaiting 0) := by
  refine ⟨rfl, ?_⟩
  exact (wakeUp_wakes sWake 0 0 rfl rfl (by simp [sWake]) (by simp [sWake])
    (by simp [sWake])).1

set_option maxRecDepth 4000 in
set_option maxHeartbeats 1000000 in
/-- C10. Notifying a condition variable with an empty waiting list — from
task context, with no critical section active and no deferred switch
pending — is a complete no-op: `notify_one` and `notify_all` return the
scheduler state (queues, task fields, pointers, pending-switch request)
exactly as it was. -/
theorem notify_empty_noop (s : SchedState) (cv : CvId)
    (hcv : s.cvWaiting cv = [])
    (hcs : s.criticalSection = false)
    (hm : s.mayNeedSwitch = false) :
    notifyOne s cv = s ∧ notifyAll s cv = s := by
  have ha : csAcquire s = ({ s with criticalSection := true }, true) := by
    simp [csAcquire, hcs]
  have hrel : csRelease { s with criticalSection := true } true = s := by
    simp only [csRelease, if_pos, criticalSectionEnd]
    rw [if_neg (by simp [hm])]
    exact setCS_false_eta s hcs
  constructor
  · simp only [notifyOne]
    rw [ha]
    dsimp only
    rw [hcv]
    exact hrel
  · simp only [notifyAll]
    rw [ha]
    dsimp only
    rw [notifyAllLoop.eq_def]
    dsimp only
    rw [hcv]
    exact hrel

theorem notify_empty_noop_witness :
    (({} : SchedState).cvWaiting 0 = []) ∧ notifyOne {} 0 = {} ∧ notifyAll {} 0 = {} :=
  ⟨rfl, (notify_empty_noop {} 0 rfl rfl rfl).1, (notify_empty_noop {} 0 rfl rfl rfl).2⟩

theorem insertCurrent_of_none (s : SchedState) (h : s.currentTask = none) :
    insertCurrent s = s := by
  unfold insertCurrent
  rw [h]

/-- When no task is current on entry, `doSwitch` never installs a current
task: the popped head can never equal the null `current`. -/
theorem doSwitch_currentTask_none (s : SchedState) (h : s.currentTask = none) :
    ((doSwitch s).1).currentTask = none := by
  unfold doSwitch
  split
  · exact h
  · have h1 : (insertNext s).currentTask = none := by
      rw [(insertNext_frame s).2.2.2.2.2.2.1]
      exact h
    rw [insertCurrent_of_none _ h1]
    unfold doSwitchPick
    rcases hr : (insertNext s).ready with _ | ⟨head, rest⟩
    · exact h1
    · dsimp only
      rw [if_neg (by simp [h1])]
      exact h1

/-- When no task is current and no critical section is active, `doSwitch`
always requests the pending-switch exception and returns true. -/
theorem doSwitch_trigger_of_none (s : SchedState) (hcs : s.criticalSection = false)
    (h : s.currentTask = none) :
    (doSwitch s).2 = true ∧ ((doSwitch s).1).pendSvPending = true := by
  unfold doSwitch
  rw [if_neg (by simp [hcs])]
  have h1 : (insertNext s).currentTask = none := by
    rw [(insertNext_frame s).2.2.2.2.2.2.1]
    exact h
  rw [insertCurrent_of_none _ h1]
  unfold doSwitchPick
  rcases hr : (insertNext s).ready with _ | ⟨head, rest⟩
  · exact ⟨rfl, rfl⟩
  · dsimp only
    rw [if_neg (by simp [h1])]
    exact ⟨rfl, rfl⟩

/-- Field computation for the body of the `Wait` service call when the
computed timeout is negative and no mutex is handed over: no timeout-queue
entry is created and the task is queued on the condition variable. -/
theorem waitPrep_neg_fields (s : SchedState) (c : TaskId) (cv : CvId) (timeout : Int)
    (hneg : timeout < 0) :
    (waitPrep s c cv timeout none).timeouts = s.timeouts ∧
    ((waitPrep s c cv timeout none).tcbs c).waitUntil = (s.tcbs c).waitUntil ∧
    ((waitPrep s c cv timeout none).tcbs c).waiting = some cv ∧
    c ∈ (waitPrep s c cv timeout none).cvWaiting cv ∧
    (waitPrep s c cv timeout none).currentTask = none := by
  unfold waitPrep
  rw [if_neg (by omega)]
  simp [updTcb, updCv, self_mem_insertWhen]

/-- C5. `wait_until(tp)` issues the `Wait` service call with
`timeout = tp - now()`; for a target already in the past this timeout is
negative, so the handler creates no timeout-queue entry (`m_waitUntil`
stays empty, the timeout queue is untouched) and the task is enqueued on
the condition variable with no deadline — it can only leave by
notification. -/
theorem wait_until_past_blocks (s : SchedState) (cv : CvId) (tp : Int) (c : TaskId)
    (hcur : s.currentTask = some c)
    (hpast : tp < s.ticks)
    (hwu : (s.tcbs c).waitUntil = none) :
    tp - s.ticks < 0 ∧
    (cvWaitUntil s cv tp).1.timeouts = s.timeouts ∧
    ((cvWaitUntil s cv tp).1.tcbs c).waitUntil = none ∧
    c ∈ (cvWaitUntil s cv tp).1.cvWaiting cv ∧
    ((cvWaitUntil s cv tp).1.tcbs c).waiting = some cv ∧
    (cvWaitUntil s cv tp).1.currentTask = none := by
  have hneg : tp - s.ticks < 0 := by omega
  obtain ⟨hp1, hp2, hp3, hp4, hp5⟩ := waitPrep_neg_fields s c cv (tp - s.ticks) hneg
  have hru : cvWaitUntil s cv tp = doSwitch (waitPrep s c cv (tp - s.ticks) none) := by
    unfold cvWaitUntil serviceWait
    rw [hcur]
  rw [hru]
  refine ⟨hneg, ?_, ?_, ?_, ?_, ?_⟩
  · rw [doSwitch_timeouts, hp1]
  · rw [doSwitch_tcbs, hp2, hwu]
  · rw [doSwitch_cvWaiting]
    exact hp4
  · rw [doSwitch_tcbs, hp3]
  · exact doSwitch_currentTask_none _ hp5

theorem wait_until_past_blocks_witness :
    (({ currentTask := some 0, ticks := 5 } : SchedState).currentTask = some 0) ∧
    (0 ∈ (cvWaitUntil { currentTask := some 0, ticks := 5 } 0 2).1.cvWaiting 0) := by
  refine ⟨rfl, ?_⟩
  exact (wait_until_past_blocks { currentTask := some 0, ticks := 5 } 0 2 0 rfl (by decide)
    rfl).2.2.2.1

theorem wakeupAfter_congr (s1 s2 : SchedState) (h : s2.tcbs = s1.tcbs) :
    wakeupAfter s2 = wakeupAfter s1 := by
  funext a b
  simp [wakeupAfter, h]

theorem updTcb_other (s : SchedState) (t u : TaskId) (f : TCB → TCB) (h : u ≠ t) :
    (updTcb s t f).tcbs u = s.tcbs u := by
  simp [updTcb, h]

/-- Field computation for the body of the `Sleep` service call. -/
theorem sleepPrep_fields (s : SchedState) (c : TaskId) (delta : Int) :
    ((sleepPrep s c delta).tcbs c).waitUntil = some (s.ticks + (delta + 1)) ∧
    c ∈ (sleepPrep s c delta).timeouts ∧
    (sleepPrep s c delta).currentTask = none ∧
    (sleepPrep s c delta).criticalSection = s.criticalSection := by
  unfold sleepPrep
  simp [updTcb, self_mem_insertWhen]

/-- The `Sleep` body inserts the sleeping task into a timeout queue that
stays sorted by deadline. -/
theorem sleepPrep_sorted (s : SchedState) (c : TaskId) (delta : Int)
    (hts : TimeoutsSorted s) (hcnot : c ∉ s.timeouts) :
    TimeoutsSorted (sleepPrep s c delta) := by
  unfold TimeoutsSorted at hts ⊢
  unfold sleepPrep
  have hstep : ∀ a b : TaskId, a ∈ s.timeouts → b ∈ s.timeouts →
      wakeupAfter s b a = false →
      wakeupAfter (updTcb s c (fun x => { x with waitUntil := some (s.ticks + (delta + 1)) })) b a
        = false := by
    intro a b ha hb hw
    have hac : a ≠ c := fun he => hcnot (he ▸ ha)
    have hbc : b ≠ c := fun he => hcnot (he ▸ hb)
    simpa [wakeupAfter, updTcb_other _ _ _ _ hac, updTcb_other _ _ _ _ hbc] using hw
  have hl : s.timeouts.Pairwise (fun a b =>
      wakeupAfter (updTcb s c (fun x => { x with waitUntil := some (s.ticks + (delta + 1)) })) b a
        = false) :=
    List.Pairwise.imp_of_mem (fun ha hb hw => hstep _ _ ha hb hw) hts
  exact insertWhen_pairwise _ (wakeupAfter_asymm _) (wakeupAfter_negtrans _) c hl

/-- C6. The `Sleep(delta)` service call with `delta ≥ 0` gives the current
task the deadline `ticks + delta + 1` — one millisecond more than
requested — inserts it into the timeout queue keeping the deadline order,
clears the current task, and ends in `doSwitch`, which requests the
pending-switch exception and returns true. -/
theorem sleep_adds_one (s : SchedState) (delta : Int) (c : TaskId)
    (hcur : s.currentTask = some c)
    (hd : 0 ≤ delta)
    (hcs : s.criticalSection = false)
    (hts : TimeoutsSorted s)
    (hcnot : c ∉ s.timeouts) :
    ((serviceSleep s delta).1.tcbs c).waitUntil = some (s.ticks + delta + 1) ∧
    c ∈ (serviceSleep s delta).1.timeouts ∧
    TimeoutsSorted (serviceSleep s delta).1 ∧
    (serviceSleep s delta).1.currentTask = none ∧
    (serviceSleep s delta).2 = true ∧
    (serviceSleep s delta).1.pendSvPending = true := by
  obtain ⟨hp1, hp2, hp3, hp4⟩ := sleepPrep_fields s c delta
  have hr : serviceSleep s delta = doSwitch (sleepPrep s c delta) := by
    unfold serviceSleep
    rw [hcur]
  have hpcs : (sleepPrep s c delta).criticalSection = false := by rw [hp4]; exact hcs
  obtain ⟨ht1, ht2⟩ := doSwitch_trigger_of_none (sleepPrep s c delta) hpcs hp3
  rw [hr]
  refine ⟨?_, ?_, ?_, ?_, ht1, ht2⟩
  · rw [doSwitch_tcbs, hp1]
    congr 1
    omega
  · rw [doSwitch_timeouts]
    exact hp2
  · have hsorted := sleepPrep_sorted s c delta hts hcnot
    unfold TimeoutsSorted at hsorted ⊢
    rw [doSwitch_timeouts]
    have he : ∀ a b : TaskId,
        wakeupAfter ((doSwitch (sleepPrep s c delta)).1) b a =
          wakeupAfter (sleepPrep s c delta) b a := by
      intro a b
      rw [wakeupAfter_congr _ _ (doSwitch_tcbs _)]
    exact hsorted.imp (fun hx => by rw [he]; exact hx)
  · exact doSwitch_currentTask_none _ hp3

theorem sleep_adds_one_witness :
    (({ currentTask := some 0, ticks := 7 } : SchedState).currentTask = some 0) ∧
    (((serviceSleep { currentTask := some 0, ticks := 7 } 3).1.tcbs 0).waitUntil
      = some (7 + 3 + 1)) := by
  refine ⟨rfl, ?_⟩
  exact (sleep_adds_one { currentTask := some 0, ticks := 7 } 3 0 rfl (by decide) rfl
    (by simp [TimeoutsSorted]) (by simp)).1

/-- The active-task branch of the `Terminate` service call leaves the task
inactive with `m_waitUntil` and `m_waiting` cleared. -/
theorem terminatePrep_tcb (s : SchedState) (t : TaskId) :
    ((terminatePrep s t).tcbs t).active = false ∧
    ((terminatePrep s t).tcbs t).waitUntil = none ∧
    ((terminatePrep s t).tcbs t).waiting = none := by
  unfold terminatePrep
  rcases hwg : (s.tcbs t).waiting with _ | cv <;>
    by_cases hw : (s.tcbs t).waitUntil.isSome <;>
    simp_all [updTcb, updCv, Option.not_isSome_iff_eq_none]

/-- The active-task branch of the `Terminate` service call does not touch
the ready queue, the critical-section flag or the task pointers. -/
theorem terminatePrep_frame (s : SchedState) (t : TaskId) :
    (terminatePrep s t).criticalSection = s.criticalSection ∧
    (terminatePrep s t).currentTask = s.currentTask ∧
    (terminatePrep s t).ready = s.ready := by
  unfold terminatePrep
  rcases hwg : (s.tcbs t).waiting with _ | cv <;>
    by_cases hw : (s.tcbs t).waitUntil.isSome <;>
    simp_all [updTcb, updCv]

/-- The active-task branch of the `Terminate` service call erases the task
from the all-tasks list and cancels its timeout entry when one is
present. -/
theorem terminatePrep_lists (s : SchedState) (t : TaskId) :
    (terminatePrep s t).allTasks = s.allTasks.erase t ∧
    (terminatePrep s t).timeouts =
      (if (s.tcbs t).waitUntil.isSome then s.timeouts.erase t else s.timeouts) := by
  unfold terminatePrep
  rcases hwg : (s.tcbs t).waiting with _ | cv <;>
    by_cases hw : (s.tcbs t).waitUntil.isSome <;>
    simp_all [updTcb, updCv]

/-- A task absent from a condition variable's waiting list stays absent
through the `Terminate` body. -/
theorem terminatePrep_cv_notmem (s : SchedState) (t : TaskId) (c : CvId)
    (hc : t ∉ s.cvWaiting c) : t ∉ (terminatePrep s t).cvWaiting c := by
  unfold terminatePrep
  rcases hwg : (s.tcbs t).waiting with _ | cv <;>
    by_cases hw : (s.tcbs t).waitUntil.isSome <;>
    simp_all [updTcb, updCv] <;>
    by_cases hccv : c = cv <;>
    simp_all <;>
    exact fun hmem => hc (List.mem_of_mem_erase hmem)

/-- The `Terminate` body removes the task from the waiting list of the
condition variable it was waiting on. -/
theorem terminatePrep_cv_waiting (s : SchedState) (t : TaskId) (cv : CvId)
    (hwg : (s.tcbs t).waiting = some cv) (hnd : (s.cvWaiting cv).Nodup) :
    t ∉ (terminatePrep s t).cvWaiting cv := by
  unfold terminatePrep
  by_cases hw : (s.tcbs t).waitUntil.isSome <;>
    simp_all [updTcb, updCv, List.Nodup.not_mem_erase]

/-- C7. Terminating an inactive task is a complete no-op (the atomic
exchange on `m_active` aborts), so the second of two terminations — or
terminating a task that already exited — changes nothing; terminating an
active task clears `m_active`, removes it from the all-tasks list, cancels
its timeout entry (clearing `m_waitUntil`) and its condition-variable entry
(clearing `m_waiting`), and, exactly when the task was current, clears the
current task and calls `doSwitch` (requesting the pending switch); when it
was not current no switch is requested. -/
theorem terminate_idempotent_effects (s : SchedState) (t : TaskId)
    (hand : s.allTasks.Nodup)
    (htnd : s.timeouts.Nodup)
    (hcvnd : ∀ cv, (s.cvWaiting cv).Nodup)
    (hinvt : (s.tcbs t).waitUntil = none → t ∉ s.timeouts)
    (hinvw : ∀ cv, t ∈ s.cvWaiting cv → (s.tcbs t).waiting = some cv) :
    ((s.tcbs t).active = false → serviceTerminate s t = (s, false)) ∧
    (serviceTerminate (serviceTerminate s t).1 t = ((serviceTerminate s t).1, false)) ∧
    ((s.tcbs t).active = true →
      ((serviceTerminate s t).1.tcbs t).active = false ∧
      t ∉ (serviceTerminate s t).1.allTasks ∧
      t ∉ (serviceTerminate s t).1.timeouts ∧
      ((serviceTerminate s t).1.tcbs t).waitUntil = none ∧
      ((serviceTerminate s t).1.tcbs t).waiting = none ∧
      (∀ cv, t ∉ (serviceTerminate s t).1.cvWaiting cv) ∧
      (s.currentTask = some t → s.criticalSection = false →
        (serviceTerminate s t).1.currentTask = none ∧
        (serviceTerminate s t).2 = true ∧
        (serviceTerminate s t).1.pendSvPending = true) ∧
      (s.currentTask ≠ some t → serviceTerminate s t = (terminatePrep s t, false))) := by
  have hinact : ∀ s2 : SchedState, (s2.tcbs t).active = false →
      serviceTerminate s2 t = (s2, false) := by
    intro s2 h2
    unfold serviceTerminate
    rw [if_pos h2]
  have hframe := terminatePrep_frame s t
  have htcb := terminatePrep_tcb s t
  have hlists := terminatePrep_lists s t
  have hcharCur : (s.tcbs t).active = true → s.currentTask = some t →
      serviceTerminate s t =
        doSwitch { terminatePrep s t with previousTask := none, currentTask := none } := by
    intro ha hcur
    unfold serviceTerminate
    rw [if_neg (by simp [ha])]
    dsimp only
    rw [if_pos (by rw [hframe.2.1]; exact hcur)]
  have hcharNot : (s.tcbs t).active = true → s.currentTask ≠ some t →
      serviceTerminate s t = (terminatePrep s t, false) := by
    intro ha hcur
    unfold serviceTerminate
    rw [if_neg (by simp [ha])]
    dsimp only
    rw [if_neg (by rw [hframe.2.1]; exact hcur)]
  have hcvall : ∀ cv, t ∉ (terminatePrep s t).cvWaiting cv := by
    intro cv2
    by_cases hmem : t ∈ s.cvWaiting cv2
    · exact terminatePrep_cv_waiting s t cv2 (hinvw cv2 hmem) (hcvnd cv2)
    · exact terminatePrep_cv_notmem s t cv2 hmem
  have htout : t ∉ (terminatePrep s t).timeouts := by
    rw [hlists.2]
    by_cases hw : (s.tcbs t).waitUntil.isSome
    · simpa [hw] using htnd.not_mem_erase
    · simpa [hw] using hinvt (Option.not_isSome_iff_eq_none.mp hw)
  have hall : t ∉ (terminatePrep s t).allTasks := by
    rw [hlists.1]
    exact hand.not_mem_erase
  have hafter : ((serviceTerminate s t).1.tcbs t).active = false := by
    by_cases ha : (s.tcbs t).active = true
    · by_cases hcur : s.currentTask = some t
      · rw [hcharCur ha hcur, doSwitch_tcbs]
        exact htcb.1
      · rw [hcharNot ha hcur]
        exact htcb.1
    · have ha2 : (s.tcbs t).active = false := by simpa using ha
      rw [hinact s ha2]
      exact ha2
  refine ⟨hinact s, hinact _ hafter, ?_⟩
  intro ha
  by_cases hcur : s.currentTask = some t
  · rw [hcharCur ha hcur]
    refine ⟨?_, ?_, ?_, ?_, ?_, ?_, ?_, ?_⟩
    · rw [doSwitch_tcbs]; exact htcb.1
    · rw [doSwitch_allTasks]; exact hall
    · rw [doSwitch_timeouts]; exact htout
    · rw [doSwitch_tcbs]; exact htcb.2.1
    · rw [doSwitch_tcbs]; exact htcb.2.2
    · intro cv2
      rw [doSwitch_cvWaiting]
      exact hcvall cv2
    · intro _ hcs
      have hX : ({ terminatePrep s t with previousTask := none, currentTask := none }
          : SchedState).criticalSection = false := by
        show (terminatePrep s t).criticalSection = false
        rw [hframe.1]
        exact hcs
      obtain ⟨hb1, hb2⟩ := doSwitch_trigger_of_none _ hX rfl
      exact ⟨doSwitch_currentTask_none _ rfl, hb1, hb2⟩
    · intro hne
      exact absurd hcur hne
  · rw [hcharNot ha hcur]
    refine ⟨htcb.1, hall, htout, htcb.2.1, htcb.2.2, hcvall, ?_, fun _ => rfl⟩
    intro hc
    exact absurd hc hcur

theorem terminate_idempotent_effects_witness :
    ((({} : SchedState).tcbs 0).active = false) ∧ serviceTerminate {} 0 = ({}, false) := by
  refine ⟨rfl, ?_⟩
  exact (terminate_idempotent_effects {} 0 (by simp) (by simp) (by simp) (by simp)
    (by simp)).1 rfl

/-- C8. Double-start behavior evaluated on the model: `task.start` returns
true then false as claimed, but `Scheduler::start` — whose own documentation
says a second call returns false — returns the result of `doSwitch()`, which
is true on the first call and true again (not false) on a second call as
compiled in release builds; debug builds instead halt on
`assert(!s_isStarted)`. -/
theorem start_twice_divergence :
    (schedulerStart {}).2 = true ∧
    (schedulerStart (schedulerStart {}).1).2 = true ∧
    (taskStart {} 0).2 = true ∧
    (taskStart (taskStart {} 0).1 0).2 = false := by
  refine ⟨rfl, rfl, rfl, rfl⟩

/-- Counterexample to C9 as stated: unlocking a `PriorityMutex` that the
caller has not locked (its `m_locked` flag is clear) is not detected by any
defensive check — `unlock` returns immediately with nothing halted and
nothing changed. -/
theorem unlock_unowned_counterexample :
    mutexUnlock mUnlocked {} = (mUnlocked, {}, false) := rfl

/-- C9 (amended). `PriorityMutex::unlock` on a mutex that is not locked is
silently ignored — a no-op with no halt in any build; the defensive halt
exists only on the locked path: unlocking a locked priority mutex whose
current BASEPRI mask does not match the mutex priority trips the debug
assert. -/
theorem unlock_not_locked_noop :
    (∀ (m : MutexState) (e : MutexEnv), m.locked = false → mutexUnlock m e = (m, e, false)) ∧
    (∀ (m : MutexState) (e : MutexEnv) (p : Nat), m.locked = true → m.priority = some p →
      p ≠ 0 → maskedPreempt e.basepri ≠ maskedPreempt p → (mutexUnlock m e).2.2 = true) := by
  constructor
  · intro m e h
    unfold mutexUnlock
    rw [if_pos h]
  · intro m e p hl hp hp0 hmask
    unfold mutexUnlock
    rw [if_neg (by simp [hl])]
    rw [hp]
    dsimp only
    rw [if_neg hp0]
    exact decide_eq_true hmask

theorem unlock_not_locked_noop_witness :
    (mUnlocked.locked = false ∧ mutexUnlock mUnlocked {} = (mUnlocked, {}, false)) ∧
    (mLocked.locked = true ∧ (mutexUnlock mLocked {}).2.2 = true) :=
  ⟨⟨rfl, unlock_not_locked_noop.1 mUnlocked {} rfl⟩,
    ⟨rfl, unlock_not_locked_noop.2 mLocked {} 0x40 rfl rfl (by decide) (by decide)⟩⟩

/-- Field computation for one drain iteration of the systick handler. -/
theorem drainStep_fields (s : SchedState) (t : TaskId) (rest : List TaskId) :
    (drainStep s t rest).timeouts = rest ∧
    (drainStep s t rest).ticks = s.ticks ∧
    ((drainStep s t rest).tcbs t).waitUntil = none ∧
    (∀ u, u ≠ t → (drainStep s t rest).tcbs u = s.tcbs u) ∧
    (∀ u, u ∈ s.ready → u ∈ (drainStep s t rest).ready) ∧
    t ∈ (drainStep s t rest).ready ∧
    (∀ u c, u ∉ s.cvWaiting c → u ∉ (drainStep s t rest).cvWaiting c) ∧
    (∀ c, (s.cvWaiting c).Nodup → ((drainStep s t rest).cvWaiting c).Nodup) ∧
    (∀ cv, (s.tcbs t).waiting = some cv →
      ((s.cvWaiting cv).Nodup → t ∉ (drainStep s t rest).cvWaiting cv) ∧
      ((drainStep s t rest).tcbs t).returnValue = cvTimeout) := by
  unfold drainStep
  rcases hwg : (s.tcbs t).waiting with _ | cv <;>
    simp_all [updTcb, updCv, mem_insertWhen_of_mem, self_mem_insertWhen]
  constructor
  · intro u c hm
    by_cases hcc : c = cv <;> simp_all
    exact fun h2 => hm (List.mem_of_mem_erase h2)
  · constructor
    · intro c hc
      by_cases hcc : c = cv <;> simp_all
      exact (List.erase_sublist _ _).nodup hc
    · exact fun hc => hc.not_mem_erase

theorem systickDrain_nil (s : SchedState) (dirty : Bool) (h : s.timeouts = []) :
    systickDrain s dirty = (s, dirty) := by
  rw [systickDrain.eq_def]
  split
  · rfl
  · rename_i t rest hl
    rw [h] at hl
    cases hl

theorem systickDrain_not_due (s : SchedState) (dirty : Bool) (t : TaskId)
    (rest : List TaskId) (d : Int) (h : s.timeouts = t :: rest)
    (hd : (s.tcbs t).waitUntil = some d) (hgt : ¬ d ≤ s.ticks) :
    systickDrain s dirty = (s, dirty) := by
  rw [systickDrain.eq_def]
  split
  · rfl
  · rename_i t2 rest2 hl
    rw [h] at hl
    injection hl with h1 h2
    subst h1
    subst h2
    rw [hd]
    dsimp only
    rw [if_neg hgt]

theorem systickDrain_due (s : SchedState) (dirty : Bool) (t : TaskId)
    (rest : List TaskId) (d : Int) (h : s.timeouts = t :: rest)
    (hd : (s.tcbs t).waitUntil = some d) (hle : d ≤ s.ticks) :
    systickDrain s dirty = systickDrain (drainStep s t rest) true := by
  rw [systickDrain.eq_def]
  split
  · rename_i hl
    rw [h] at hl
    cases hl
  · rename_i t2 rest2 hl
    rw [h] at hl
    injection hl with h1 h2
    subst h1
    subst h2
    rw [hd]
    dsimp only
    rw [if_pos hle]

/-- Pointwise equal predicates take and drop the same prefix. -/
theorem takeWhile_dropWhile_congr {p q : α → Bool} :
    ∀ (l : List α), (∀ x ∈ l, p x = q x) →
      l.takeWhile p = l.takeWhile q ∧ l.dropWhile p = l.dropWhile q := by
  intro l
  induction l with
  | nil => simp
  | cons a as ih =>
    intro h
    have ha : p a = q a := h a (List.mem_cons_self _ _)
    have has := ih (fun x hx => h x (List.mem_cons_of_mem _ hx))
    rcases hq : q a with _ | _
    · simp [List.takeWhile_cons, List.dropWhile_cons, ha, hq]
    · simp [List.takeWhile_cons, List.dropWhile_cons, ha, hq, has.1, has.2]

/-- Characterization of the systick drain loop: with every queued task
carrying a deadline and no duplicates anywhere, the loop removes exactly
the maximal due prefix of the timeout queue, reports a promotion exactly
when that prefix is nonempty, clears the deadline of every drained task,
removes a CV-waiting drained task from its condition variable's list
writing `timeout` into its saved r0, moves every drained task to the ready
queue, and touches no other task. -/
theorem systickDrain_char :
    ∀ (n : Nat) (s : SchedState) (dirty : Bool),
      s.timeouts.length ≤ n →
      (∀ u ∈ s.timeouts, ((s.tcbs u).waitUntil).isSome = true) →
      s.timeouts.Nodup →
      (∀ c, (s.cvWaiting c).Nodup) →
      (systickDrain s dirty).1.timeouts = s.timeouts.dropWhile (dueBy s s.ticks) ∧
      (systickDrain s dirty).1.ticks = s.ticks ∧
      (systickDrain s dirty).2
        = (dirty || !((s.timeouts.takeWhile (dueBy s s.ticks)).isEmpty)) ∧
      (∀ u, u ∉ s.timeouts.takeWhile (dueBy s s.ticks) →
        (systickDrain s dirty).1.tcbs u = s.tcbs u) ∧
      (∀ u, u ∈ s.ready → u ∈ (systickDrain s dirty).1.ready) ∧
      (∀ u c, u ∉ s.cvWaiting c → u ∉ (systickDrain s dirty).1.cvWaiting c) ∧
      (∀ c, ((systickDrain s dirty).1.cvWaiting c).Nodup) ∧
      (∀ t2 ∈ s.timeouts.takeWhile (dueBy s s.ticks),
        ((systickDrain s dirty).1.tcbs t2).waitUntil = none ∧
        t2 ∈ (systickDrain s dirty).1.ready ∧
        (∀ cv, (s.tcbs t2).waiting = some cv →
          t2 ∉ (systickDrain s dirty).1.cvWaiting cv ∧
          ((systickDrain s dirty).1.tcbs t2).returnValue = cvTimeout)) := by
  intro n
  induction n with
  | zero =>
    intro s dirty hlen hsome hnd hcvnd
    have hemp : s.timeouts = [] := List.eq_nil_of_length_eq_zero (Nat.le_zero.mp hlen)
    rw [systickDrain_nil s dirty hemp]
    simp [hemp]
    exact hcvnd
  | succ n ih =>
    intro s dirty hlen hsome hnd hcvnd
    rcases hl : s.timeouts with _ | ⟨t, rest⟩
    · rw [systickDrain_nil s dirty hl]
      simp [hl]
      exact hcvnd
    · have hts : ((s.tcbs t).waitUntil).isSome = true :=
        hsome t (by rw [hl]; exact List.mem_cons_self _ _)
      rcases hwu : (s.tcbs t).waitUntil with _ | d
      · rw [hwu] at hts
        cases hts
      · by_cases hdue : d ≤ s.ticks
        case neg =>
          rw [systickDrain_not_due s dirty t rest d hl hwu hdue]
          have hp : dueBy s s.ticks t = false := by
            simp only [dueBy, hwu, Option.getD_some]
            simpa using hdue
          simp [hl, hp, List.takeWhile_cons, List.dropWhile_cons]
          exact hcvnd
        case pos =>
          rw [systickDrain_due s dirty t rest d hl hwu hdue]
          obtain ⟨hd1, hd2, hd3, hd4, hd5, hd6, hd7, hd8, hd9⟩ := drainStep_fields s t rest
          have hndc : t ∉ rest ∧ rest.Nodup := by
            have h2 := hnd
            rw [hl] at h2
            exact List.nodup_cons.mp h2
          have hsome2 : ∀ u ∈ (drainStep s t rest).timeouts,
              (((drainStep s t rest).tcbs u).waitUntil).isSome = true := by
            intro u hu
            rw [hd1] at hu
            have hut : u ≠ t := fun he => hndc.1 (he ▸ hu)
            rw [hd4 u hut]
            exact hsome u (by rw [hl]; exact List.mem_cons_of_mem _ hu)
          have hnd2 : (drainStep s t rest).timeouts.Nodup := by
            rw [hd1]
            exact hndc.2
          have hcvnd2 : ∀ c, ((drainStep s t rest).cvWaiting c).Nodup :=
            fun c => hd8 c (hcvnd c)
          have hlen2 : (drainStep s t rest).timeouts.length ≤ n := by
            rw [hd1]
            have h2 := hlen
            rw [hl] at h2
            simpa using h2
          obtain ⟨hi1, hi2, hi3, hi4, hi5, hi6, hi7, hi8⟩ :=
            ih (drainStep s t rest) true hlen2 hsome2 hnd2 hcvnd2
          have hcong : ∀ x ∈ rest,
              dueBy (drainStep s t rest) (drainStep s t rest).ticks x = dueBy s s.ticks x := by
            intro x hx
            have hxt : x ≠ t := fun he => hndc.1 (he ▸ hx)
            simp [dueBy, hd2, hd4 x hxt]
          have hcong2 := takeWhile_dropWhile_congr rest hcong
          have hTake : (drainStep s t rest).timeouts.takeWhile
              (dueBy (drainStep s t rest) (drainStep s t rest).ticks)
              = rest.takeWhile (dueBy s s.ticks) := by
            rw [hd1, hcong2.1]
          have hDrop : (drainStep s t rest).timeouts.dropWhile
              (dueBy (drainStep s t rest) (drainStep s t rest).ticks)
              = rest.dropWhile (dueBy s s.ticks) := by
            rw [hd1, hcong2.2]
          have hp : dueBy s s.ticks t = true := by
            simp only [dueBy, hwu, Option.getD_some]
            simpa using hdue
          have htakecons : List.takeWhile (dueBy s s.ticks) (t :: rest)
              = t :: rest.takeWhile (dueBy s s.ticks) := by
            rw [List.takeWhile_cons, if_pos hp]
          have hdropcons : List.dropWhile (dueBy s s.ticks) (t :: rest)
              = rest.dropWhile (dueBy s s.ticks) := by
            rw [List.dropWhile_cons, if_pos hp]
          have htnotake : t ∉ (drainStep s t rest).timeouts.takeWhile
              (dueBy (drainStep s t rest) (drainStep s t rest).ticks) := by
            rw [hTake]
            intro hmem
            exact hndc.1 ((List.takeWhile_sublist _).mem hmem)
          refine ⟨?_, ?_, ?_, ?_, ?_, ?_, hi7, ?_⟩
          · rw [hi1, hDrop, hdropcons]
          · rw [hi2, hd2]
          · rw [hi3, htakecons]
            simp
          · intro u hu
            rw [htakecons] at hu
            have hut : u ≠ t := fun he => hu (he ▸ List.mem_cons_self _ _)
            have hur : u ∉ rest.takeWhile (dueBy s s.ticks) :=
              fun hm => hu (List.mem_cons_of_mem _ hm)
            rw [hi4 u (by rw [hTake]; exact hur), hd4 u hut]
          · intro u hu
            exact hi5 u (hd5 u hu)
          · intro u c hu
            exact hi6 u c (hd7 u c hu)
          · intro t2 ht2
            rw [htakecons] at ht2
            rcases List.mem_cons.mp ht2 with rfl | ht2r
            · refine ⟨?_, hi5 t2 hd6, ?_⟩
              · rw [hi4 t2 htnotake, hd3]
              · intro cv hcv
                have h9 := hd9 cv hcv
                exact ⟨hi6 t2 cv (h9.1 (hcvnd cv)), by rw [hi4 t2 htnotake]; exact h9.2⟩
            · have ht2rest : t2 ∈ rest := (List.takeWhile_sublist _).mem ht2r
              have ht2t : t2 ≠ t := fun he => hndc.1 (he ▸ ht2rest)
              have ht2D : t2 ∈ (drainStep s t rest).timeouts.takeWhile
                  (dueBy (drainStep s t rest) (drainStep s t rest).ticks) := by
                rw [hTake]
                exact ht2r
              obtain ⟨hw1, hw2, hw3⟩ := hi8 t2 ht2D
              refine ⟨hw1, hw2, ?_⟩
              intro cv hcv
              exact hw3 cv (by rw [hd4 t2 ht2t]; exact hcv)

/-- C3. The systick handler advances `ticks` by exactly one millisecond and
then drains the due prefix of the timeout queue: afterwards the timeout
queue holds exactly the tasks whose deadline exceeds the new clock; every
drained task has `m_waitUntil` cleared and sits in the ready queue (or has
already been picked as the next/current task by the closing `doSwitch`); a
drained task that was waiting on a condition variable is gone from that
condition variable's waiting list with `timeout` written as its saved
return value; and `doSwitch` is called exactly when at least one task was
promoted — otherwise the handler changes nothing but the clock and reports
false. -/
theorem systick_spec (s : SchedState)
    (hsome : ∀ u ∈ s.timeouts, ((s.tcbs u).waitUntil).isSome = true)
    (hnd : s.timeouts.Nodup)
    (hcvnd : ∀ c, (s.cvWaiting c).Nodup) :
    (systickHandler s).1.ticks = s.ticks + 1 ∧
    (systickHandler s).1.timeouts = s.timeouts.dropWhile (dueBy s (s.ticks + 1)) ∧
    (∀ t2 ∈ s.timeouts.takeWhile (dueBy s (s.ticks + 1)),
      ((systickHandler s).1.tcbs t2).waitUntil = none ∧
      (t2 ∈ (systickHandler s).1.ready ∨ (systickHandler s).1.nextTask = some t2 ∨
        (systickHandler s).1.currentTask = some t2) ∧
      (∀ cv, (s.tcbs t2).waiting = some cv →
        t2 ∉ (systickHandler s).1.cvWaiting cv ∧
        ((systickHandler s).1.tcbs t2).returnValue = cvTimeout)) ∧
    (s.timeouts.takeWhile (dueBy s (s.ticks + 1)) = [] →
      systickHandler s = ({ s with ticks := s.ticks + 1 }, false)) ∧
    (s.timeouts.takeWhile (dueBy s (s.ticks + 1)) ≠ [] →
      systickHandler s
        = doSwitch (systickDrain { s with ticks := s.ticks + 1 } false).1) := by
  obtain ⟨h1, h2, h3, h4, h5, h6, h7, h8⟩ :
      (systickDrain { s with ticks := s.ticks + 1 } false).1.timeouts
        = s.timeouts.dropWhile (dueBy s (s.ticks + 1)) ∧
      (systickDrain { s with ticks := s.ticks + 1 } false).1.ticks = s.ticks + 1 ∧
      (systickDrain { s with ticks := s.ticks + 1 } false).2
        = (false || !((s.timeouts.takeWhile (dueBy s (s.ticks + 1))).isEmpty)) ∧
      (∀ u, u ∉ s.timeouts.takeWhile (dueBy s (s.ticks + 1)) →
        (systickDrain { s with ticks := s.ticks + 1 } false).1.tcbs u = s.tcbs u) ∧
      (∀ u, u ∈ s.ready →
        u ∈ (systickDrain { s with ticks := s.ticks + 1 } false).1.ready) ∧
      (∀ u c, u ∉ s.cvWaiting c →
        u ∉ (systickDrain { s with ticks := s.ticks + 1 } false).1.cvWaiting c) ∧
      (∀ c, ((systickDrain { s with ticks := s.ticks + 1 } false).1.cvWaiting c).Nodup) ∧
      (∀ t2 ∈ s.timeouts.takeWhile (dueBy s (s.ticks + 1)),
        ((systickDrain { s with ticks := s.ticks + 1 } false).1.tcbs t2).waitUntil = none ∧
        t2 ∈ (systickDrain { s with ticks := s.ticks + 1 } false).1.ready ∧
        (∀ cv, (s.tcbs t2).waiting = some cv →
          t2 ∉ (systickDrain { s with ticks := s.ticks + 1 } false).1.cvWaiting cv ∧
          ((systickDrain { s with ticks := s.ticks + 1 } false).1.tcbs t2).returnValue
            = cvTimeout)) :=
    systickDrain_char s.timeouts.length { s with ticks := s.ticks + 1 } false le_rfl
      hsome hnd hcvnd
  by_cases hpe : s.timeouts.takeWhile (dueBy s (s.ticks + 1)) = []
  · have hdrain : systickDrain { s with ticks := s.ticks + 1 } false
        = ({ s with ticks := s.ticks + 1 }, false) := by
      rcases hl : s.timeouts with _ | ⟨t, rest⟩
      · exact systickDrain_nil _ _ rfl
      · have hts : ((s.tcbs t).waitUntil).isSome = true :=
          hsome t (by rw [hl]; exact List.mem_cons_self _ _)
        rcases hwu : (s.tcbs t).waitUntil with _ | d
        · rw [hwu] at hts
          cases hts
        · have hp : dueBy s (s.ticks + 1) t = false := by
            have h9 := hpe
            rw [hl, List.takeWhile_cons] at h9
            by_cases hb : dueBy s (s.ticks + 1) t = true
            · rw [if_pos hb] at h9
              cases h9
            · simpa using hb
          have hgt : ¬ d ≤ s.ticks + 1 := by
            simpa [dueBy, hwu] using hp
          exact systickDrain_not_due _ _ t rest d rfl hwu hgt
    have hh : systickHandler s = ({ s with ticks := s.ticks + 1 }, false) := by
      calc systickHandler s
          = (if (systickDrain { s with ticks := s.ticks + 1 } false).2 then
              doSwitch (systickDrain { s with ticks := s.ticks + 1 } false).1
            else ((systickDrain { s with ticks := s.ticks + 1 } false).1, false)) := rfl
        _ = ({ s with ticks := s.ticks + 1 }, false) := by
              rw [hdrain]
              simp
    refine ⟨by rw [hh], ?_, ?_, fun _ => hh, fun hne => absurd hpe hne⟩
    · rw [hh]
      show s.timeouts = s.timeouts.dropWhile (dueBy s (s.ticks + 1))
      rw [← h1, hdrain]
    · intro t2 ht2
      rw [hpe] at ht2
      cases ht2
  · have hr2 : (systickDrain { s with ticks := s.ticks + 1 } false).2 = true := by
      rw [h3]
      simp only [Bool.false_or, Bool.not_eq_true']
      rw [← Bool.not_eq_true]
      simp [List.isEmpty_iff, hpe]
    have hh : systickHandler s
        = doSwitch (systickDrain { s with ticks := s.ticks + 1 } false).1 := by
      calc systickHandler s
          = (if (systickDrain { s with ticks := s.ticks + 1 } false).2 then
              doSwitch (systickDrain { s with ticks := s.ticks + 1 } false).1
            else ((systickDrain { s with ticks := s.ticks + 1 } false).1, false)) := rfl
        _ = _ := by rw [hr2]; simp
    refine ⟨?_, ?_, ?_, fun he => absurd he hpe, fun _ => hh⟩
    · rw [hh, doSwitch_ticks, h2]
    · rw [hh, doSwitch_timeouts, h1]
    · intro t2 ht2
      obtain ⟨hw1, hw2, hw3⟩ := h8 t2 ht2
      refine ⟨?_, ?_, ?_⟩
      · rw [hh, doSwitch_tcbs]
        exact hw1
      · rw [hh]
        exact doSwitch_ready_mem _ t2 hw2
      · intro cv hcv
        obtain ⟨hx1, hx2⟩ := hw3 cv hcv
        constructor
        · rw [hh, doSwitch_cvWaiting]
          exact hx1
        · rw [hh, doSwitch_tcbs]
          exact hx2

theorem systick_spec_witness :
    ((({} : SchedState).timeouts).Nodup) ∧ (systickHandler {}).1.ticks = 0 + 1 :=
  ⟨by simp, (systick_spec {} (by simp) (by simp) (by simp)).1⟩

theorem cmpReady_eq_of_tcbs {s1 s2 : SchedState} (h : s2.tcbs = s1.tcbs) :
    cmpReady s2 = cmpReady s1 := by
  funext a b
  simp [cmpReady, h]

/-- Ordered insertion with the ready comparator of any state whose priority
and last-started fields agree with `s` produces a list sorted for `s`. -/
theorem insertWhen_cmp_sorted_of_keys (s sx : SchedState) (t : TaskId) (l : List TaskId)
    (hk : ∀ u, (sx.tcbs u).priority = (s.tcbs u).priority ∧
      (sx.tcbs u).lastStarted = (s.tcbs u).lastStarted)
    (hl : l.Pairwise (fun a b => cmpReady s b a = false)) :
    (insertWhen (cmpReady sx) t l).Pairwise (fun a b => cmpReady s b a = false) := by
  rw [cmpReady_congr s sx hk]
  have h2 : l.Pairwise (fun a b => cmpReady sx b a = false) := by
    rw [cmpReady_congr s sx hk]
    exact hl
  have h3 := insertWhen_pairwise (cmpReady sx) (cmpReady_asymm sx) (cmpReady_negtrans sx) t h2
  rw [cmpReady_congr s sx hk] at h3
  exact h3

theorem doSwitchPick_ready_pairwise (s : SchedState) (current : Option TaskId)
    {R : TaskId → TaskId → Prop} (h : s.ready.Pairwise R) :
    ((doSwitchPick s current).1).ready.Pairwise R := by
  unfold doSwitchPick
  split
  · exact h
  · rename_i head rest hr
    rw [hr] at h
    have hrest := (List.pairwise_cons.mp h).2
    split
    · exact hrest
    · exact hrest

/-- `doSwitch` keeps the ready queue sorted. -/
theorem doSwitch_readySorted (s : SchedState) (hrs : ReadySorted s) :
    ReadySorted (doSwitch s).1 := by
  unfold ReadySorted at hrs ⊢
  simp only [cmpReady_eq_of_tcbs (doSwitch_tcbs s)]
  unfold doSwitch
  split
  · exact hrs
  · have h1 : (insertNext s).ready.Pairwise (fun a b => cmpReady s b a = false) := by
      unfold insertNext
      split
      · exact insertWhen_cmp_sorted_of_keys s s _ s.ready (fun u => ⟨rfl, rfl⟩) hrs
      · exact hrs
    have h2 : (insertCurrent (insertNext s)).ready.Pairwise
        (fun a b => cmpReady s b a = false) := by
      unfold insertCurrent
      split
      · exact insertWhen_cmp_sorted_of_keys s (insertNext s) _ (insertNext s).ready
          (by rw [(insertNext_frame s).1]; exact fun u => ⟨rfl, rfl⟩) h1
      · exact h1
    exact doSwitchPick_ready_pairwise _ _ h2

/-- `doSwitch` keeps every condition variable's waiting list sorted. -/
theorem doSwitch_cvSorted (s : SchedState) (c : CvId) (h : CvSorted s c) :
    CvSorted (doSwitch s).1 c := by
  unfold CvSorted at h ⊢
  simp only [cmpReady_eq_of_tcbs (doSwitch_tcbs s), doSwitch_cvWaiting]
  exact h

theorem wakeUpPrep_keys (s : SchedState) (t : TaskId) (cv : CvId) :
    ∀ u, ((wakeUpPrep s t cv).tcbs u).priority = (s.tcbs u).priority ∧
      ((wakeUpPrep s t cv).tcbs u).lastStarted = (s.tcbs u).lastStarted := by
  intro u
  unfold wakeUpPrep
  by_cases hw : (((updTcb (updCv s cv (fun l => l.erase t)) t
      (fun b => { b with waiting := none, returnValue := cvNoTimeout })).tcbs t).waitUntil).isSome <;>
    by_cases hu : u = t <;>
    simp_all [updTcb, updCv]

/-- The body of `wakeUp` keeps the ready queue and all waiting lists
sorted. -/
theorem wakeUpPrep_sorted (s : SchedState) (t : TaskId) (cv : CvId)
    (hrs : ReadySorted s) (hcv : ∀ c, CvSorted s c) :
    ReadySorted (wakeUpPrep s t cv) ∧ ∀ c, CvSorted (wakeUpPrep s t cv) c := by
  have hk := wakeUpPrep_keys s t cv
  constructor
  · unfold ReadySorted
    simp only [cmpReady_congr s _ hk]
    unfold wakeUpPrep
    dsimp only
    split
    · exact insertWhen_cmp_sorted_of_keys s _ t _
        (by
          intro u
          by_cases hu : u = t <;> simp [updTcb, updCv, hu])
        hrs
    · exact insertWhen_cmp_sorted_of_keys s _ t _
        (by
          intro u
          by_cases hu : u = t <;> simp [updTcb, updCv, hu])
        hrs
  · intro c
    unfold CvSorted
    simp only [cmpReady_congr s _ hk]
    have hlist : (wakeUpPrep s t cv).cvWaiting c
        = (if c = cv then (s.cvWaiting c).erase t else s.cvWaiting c) := by
      unfold wakeUpPrep
      dsimp only
      split <;> simp [updTcb, updCv]
    rw [hlist]
    by_cases hc : c = cv
    · rw [if_pos hc]
      exact List.Pairwise.sublist (List.erase_sublist _ _) (hcv c)
    · rw [if_neg hc]
      exact hcv c

/-- `wakeUp` keeps the ready queue and all waiting lists sorted. -/
theorem wakeUp_sorted (s : SchedState) (t : TaskId) (cv : CvId)
    (hrs : ReadySorted s) (hcv : ∀ c, CvSorted s c) :
    ReadySorted (wakeUp s t cv) ∧ ∀ c, CvSorted (wakeUp s t cv) c := by
  obtain ⟨h1, h2⟩ := wakeUpPrep_sorted s t cv hrs hcv
  exact ⟨doSwitch_readySorted _ h1, fun c => doSwitch_cvSorted _ c (h2 c)⟩

theorem systickDrain_none_wait (s : SchedState) (dirty : Bool) (t : TaskId)
    (rest : List TaskId) (h : s.timeouts = t :: rest)
    (hd : (s.tcbs t).waitUntil = none) :
    systickDrain s dirty = (s, dirty) := by
  rw [systickDrain.eq_def]
  split
  · rfl
  · rename_i t2 rest2 hl
    rw [h] at hl
    injection hl with h1 h2
    subst h1
    subst h2
    rw [hd]

theorem drainStep_keys (s : SchedState) (t : TaskId) (rest : List TaskId) :
    ∀ u, ((drainStep s t rest).tcbs u).priority = (s.tcbs u).priority ∧
      ((drainStep s t rest).tcbs u).lastStarted = (s.tcbs u).lastStarted := by
  intro u
  unfold drainStep
  rcases hwg : (s.tcbs t).waiting with _ | cv <;>
    by_cases hu : u = t <;>
    simp_all [updTcb, updCv]

/-- One drain iteration keeps the ready queue and all waiting lists
sorted. -/
theorem drainStep_sorted (s : SchedState) (t : TaskId) (rest : List TaskId)
    (hrs : ReadySorted s) (hcv : ∀ c, CvSorted s c) :
    ReadySorted (drainStep s t rest) ∧ ∀ c, CvSorted (drainStep s t rest) c := by
  have hk := drainStep_keys s t rest
  constructor
  · unfold ReadySorted
    simp only [cmpReady_congr s _ hk]
    unfold drainStep
    dsimp only
    split
    · exact insertWhen_cmp_sorted_of_keys s _ t _
        (by
          intro u
          by_cases hu : u = t <;> simp [updTcb, updCv, hu])
        hrs
    · exact insertWhen_cmp_sorted_of_keys s _ t _
        (by
          intro u
          by_cases hu : u = t <;> simp [updTcb, updCv, hu])
        hrs
  · intro c
    unfold CvSorted
    simp only [cmpReady_congr s _ hk]
    have hsub : ((drainStep s t rest).cvWaiting c).Sublist (s.cvWaiting c) := by
      unfold drainStep
      dsimp only
      split
      · rename_i cv hwg
        by_cases hc : c = cv <;> simp [updTcb, updCv, hc]
        exact List.erase_sublist _ _
      · simp [updTcb, updCv]
    exact List.Pairwise.sublist hsub (hcv c)

/-- The whole drain loop keeps the ready queue and all waiting lists
sorted. -/
theorem systickDrain_sorted :
    ∀ (n : Nat) (s : SchedState) (dirty : Bool), s.timeouts.length ≤ n →
      ReadySorted s → (∀ c, CvSorted s c) →
      ReadySorted (systickDrain s dirty).1 ∧ ∀ c, CvSorted (systickDrain s dirty).1 c := by
  intro n
  induction n with
  | zero =>
    intro s dirty hlen hrs hcv
    have hemp : s.timeouts = [] := List.eq_nil_of_length_eq_zero (Nat.le_zero.mp hlen)
    rw [systickDrain_nil s dirty hemp]
    exact ⟨hrs, hcv⟩
  | succ n ih =>
    intro s dirty hlen hrs hcv
    rcases hl : s.timeouts with _ | ⟨t, rest⟩
    · rw [systickDrain_nil s dirty hl]
      exact ⟨hrs, hcv⟩
    · rcases hwu : (s.tcbs t).waitUntil with _ | d
      · rw [systickDrain_none_wait s dirty t rest hl hwu]
        exact ⟨hrs, hcv⟩
      · by_cases hdue : d ≤ s.ticks
        · rw [systickDrain_due s dirty t rest d hl hwu hdue]
          obtain ⟨hs1, hs2⟩ := drainStep_sorted s t rest hrs hcv
          have hlen2 : (drainStep s t rest).timeouts.length ≤ n := by
            rw [(drainStep_fields s t rest).1]
            have h2 := hlen
            rw [hl] at h2
            simpa using h2
          exact ih (drainStep s t rest) true hlen2 hs1 hs2
        · rw [systickDrain_not_due s dirty t rest d hl hwu hdue]
          exact ⟨hrs, hcv⟩

/-- The systick handler keeps the ready queue and all waiting lists
sorted. -/
theorem systick_sorted (s : SchedState) (hrs : ReadySorted s) (hcv : ∀ c, CvSorted s c) :
    ReadySorted (systickHandler s).1 ∧ ∀ c, CvSorted (systickHandler s).1 c := by
  have h0 : ReadySorted { s with ticks := s.ticks + 1 } := hrs
  have h0c : ∀ c, CvSorted { s with ticks := s.ticks + 1 } c := hcv
  obtain ⟨hd1, hd2⟩ := systickDrain_sorted s.timeouts.length
    { s with ticks := s.ticks + 1 } false le_rfl h0 h0c
  by_cases hb : (systickDrain { s with ticks := s.ticks + 1 } false).2 = true
  · have hh : systickHandler s
        = doSwitch (systickDrain { s with ticks := s.ticks + 1 } false).1 := by
      calc systickHandler s
          = (if (systickDrain { s with ticks := s.ticks + 1 } false).2 then
              doSwitch (systickDrain { s with ticks := s.ticks + 1 } false).1
            else ((systickDrain { s with ticks := s.ticks + 1 } false).1, false)) := rfl
        _ = _ := by rw [if_pos hb]
    rw [hh]
    exact ⟨doSwitch_readySorted _ hd1, fun c => doSwitch_cvSorted _ c (hd2 c)⟩
  · have hh : systickHandler s
        = ((systickDrain { s with ticks := s.ticks + 1 } false).1, false) := by
      calc systickHandler s
          = (if (systickDrain { s with ticks := s.ticks + 1 } false).2 then
              doSwitch (systickDrain { s with ticks := s.ticks + 1 } false).1
            else ((systickDrain { s with ticks := s.ticks + 1 } false).1, false)) := rfl
        _ = _ := by rw [if_neg hb]
    rw [hh]
    exact ⟨hd1, hd2⟩

theorem pairwise_cmp_updTcb_of_not_mem (s : SchedState) (t : TaskId) (f : TCB → TCB)
    {l : List TaskId} (hm : t ∉ l)
    (hp : l.Pairwise (fun a b => cmpReady s b a = false)) :
    l.Pairwise (fun a b => cmpReady (updTcb s t f) b a = false) := by
  refine List.Pairwise.imp_of_mem ?_ hp
  intro a b ha hb hab
  have hat : a ≠ t := fun he => hm (he ▸ ha)
  have hbt : b ≠ t := fun he => hm (he ▸ hb)
  rw [show cmpReady (updTcb s t f) b a = cmpReady s b a from by
    simp [cmpReady, updTcb, hat, hbt]]
  exact hab

/-- `addTask` (used by `TaskControlBlock::start`) keeps the ready queue and
all waiting lists sorted. -/
theorem addTask_sorted (s : SchedState) (t : TaskId)
    (hrs : ReadySorted s) (hcv : ∀ c, CvSorted s c) :
    ReadySorted (addTask s t) ∧ ∀ c, CvSorted (addTask s t) c := by
  have hA : ReadySorted
      { s with allTasks := t :: s.allTasks, ready := insertWhen (cmpReady s) t s.ready } := by
    unfold ReadySorted
    exact insertWhen_cmp_sorted_of_keys s s t s.ready (fun u => ⟨rfl, rfl⟩) hrs
  have hAc : ∀ c, CvSorted
      { s with allTasks := t :: s.allTasks, ready := insertWhen (cmpReady s) t s.ready } c :=
    hcv
  unfold addTask
  dsimp only
  split
  · exact ⟨doSwitch_readySorted _ hA, fun c => doSwitch_cvSorted _ c (hAc c)⟩
  · exact ⟨hA, hAc⟩

/-- `TaskControlBlock::start` keeps the ready queue and all waiting lists
sorted. -/
theorem taskStart_sorted (s : SchedState) (t : TaskId)
    (hrs : ReadySorted s) (hcv : ∀ c, CvSorted s c) :
    ReadySorted (taskStart s t).1 ∧ ∀ c, CvSorted (taskStart s t).1 c := by
  unfold taskStart
  split
  · exact ⟨hrs, hcv⟩
  · dsimp only
    have hk : ∀ u, (((updTcb s t (fun b => { b with active := true })).tcbs u).priority
          = (s.tcbs u).priority) ∧
        (((updTcb s t (fun b => { b with active := true })).tcbs u).lastStarted
          = (s.tcbs u).lastStarted) := by
      intro u
      by_cases hu : u = t <;> simp [updTcb, hu]
    have hrs1 : ReadySorted (updTcb s t (fun b => { b with active := true })) := by
      unfold ReadySorted
      simp only [cmpReady_congr s _ hk]
      exact hrs
    have hcv1 : ∀ c, CvSorted (updTcb s t (fun b => { b with active := true })) c := by
      intro c
      unfold CvSorted
      simp only [cmpReady_congr s _ hk]
      exact hcv c
    exact addTask_sorted _ t hrs1 hcv1

/-- `Scheduler::updatePriority` keeps the ready queue and all waiting lists
sorted, given the task-placement invariants: a ready task is active, not
current or next, and waits on nothing; a CV-waiting task is active, recorded
as waiting on exactly that condition variable, and not current or next. -/
theorem updatePriority_sorted (s : SchedState) (t : TaskId) (p : Nat)
    (hrs : ReadySorted s) (hcv : ∀ c, CvSorted s c)
    (hndr : s.ready.Nodup) (hndc : ∀ c, (s.cvWaiting c).Nodup)
    (hposr : t ∈ s.ready → (s.tcbs t).active = true ∧ s.currentTask ≠ some t ∧
      s.nextTask ≠ some t ∧ (s.tcbs t).waiting = none ∧ (s.tcbs t).waitUntil = none)
    (hposc : ∀ c, t ∈ s.cvWaiting c → (s.tcbs t).active = true ∧
      (s.tcbs t).waiting = some c ∧ s.currentTask ≠ some t ∧ s.nextTask ≠ some t) :
    ReadySorted (updatePriority s t p) ∧ ∀ c, CvSorted (updatePriority s t p) c := by
  have htrR : t ∉ s.ready →
      ReadySorted (updTcb s t (fun b => { b with priority := p })) := by
    intro hm
    unfold ReadySorted
    exact pairwise_cmp_updTcb_of_not_mem s t _ hm hrs
  have htrC : ∀ c, t ∉ s.cvWaiting c →
      CvSorted (updTcb s t (fun b => { b with priority := p })) c := by
    intro c hm
    unfold CvSorted
    exact pairwise_cmp_updTcb_of_not_mem s t _ hm (hcv c)
  unfold updatePriority
  dsimp only
  split
  case isTrue hact =>
    rw [show ((updTcb s t (fun b => { b with priority := p })).tcbs t).active
        = (s.tcbs t).active from by simp [updTcb]] at hact
    split
    case isTrue hcur =>
      have hnr : t ∉ s.ready := by
        intro hm
        rcases hcur with h | h
        · exact (hposr hm).2.1 h
        · exact (hposr hm).2.2.1 h
      have hnc : ∀ c, t ∉ s.cvWaiting c := by
        intro c hm
        rcases hcur with h | h
        · exact (hposc c hm).2.2.1 h
        · exact (hposc c hm).2.2.2 h
      exact ⟨doSwitch_readySorted _ (htrR hnr),
        fun c => doSwitch_cvSorted _ c (htrC c (hnc c))⟩
    case isFalse hcur =>
      split
      case h_1 cv heq =>
        rw [show ((updTcb s t (fun b => { b with priority := p })).tcbs t).waiting
            = (s.tcbs t).waiting from by simp [updTcb]] at heq
        have hnr : t ∉ s.ready := by
          intro hm
          have h5 := (hposr hm).2.2.2.1
          rw [heq] at h5
          cases h5
        constructor
        · have h6 := htrR hnr
          unfold ReadySorted at h6 ⊢
          exact h6
        · intro c
          unfold CvSorted
          by_cases hc : c = cv
          · subst hc
            rw [show ((updCv (updTcb s t (fun b => { b with priority := p })) c
                (fun l => insertWhen
                  (cmpReady (updTcb s t (fun b => { b with priority := p }))) t
                  (l.erase t))).cvWaiting c)
              = insertWhen (cmpReady (updTcb s t (fun b => { b with priority := p }))) t
                  ((s.cvWaiting c).erase t) from by simp [updCv, updTcb]]
            have h1 : ((s.cvWaiting c).erase t).Pairwise
                (fun a b => cmpReady s b a = false) :=
              List.Pairwise.sublist (List.erase_sublist _ _) (hcv c)
            have h2 : t ∉ (s.cvWaiting c).erase t := (hndc c).not_mem_erase
            have h3 := pairwise_cmp_updTcb_of_not_mem s t
              (fun b => { b with priority := p }) h2 h1
            exact insertWhen_pairwise _ (cmpReady_asymm _) (cmpReady_negtrans _) t h3
          · rw [show ((updCv (updTcb s t (fun b => { b with priority := p })) cv
                (fun l => insertWhen
                  (cmpReady (updTcb s t (fun b => { b with priority := p }))) t
                  (l.erase t))).cvWaiting c) = s.cvWaiting c from by
              simp [updCv, updTcb, hc]]
            have hnm : t ∉ s.cvWaiting c := by
              intro hm
              have h6 := (hposc c hm).2.1
              rw [heq] at h6
              injection h6 with h7
              exact hc h7.symm
            have h8 := htrC c hnm
            unfold CvSorted at h8
            rw [show ((updTcb s t (fun b => { b with priority := p })).cvWaiting c)
                = s.cvWaiting c from rfl] at h8
            exact h8
      case h_2 heq =>
        rw [show ((updTcb s t (fun b => { b with priority := p })).tcbs t).waiting
            = (s.tcbs t).waiting from by simp [updTcb]] at heq
        have hnc : ∀ c, t ∉ s.cvWaiting c := by
          intro c hm
          have h6 := (hposc c hm).2.1
          rw [heq] at h6
          cases h6
        split
        case isTrue hwu =>
          rw [show ((updTcb s t (fun b => { b with priority := p })).tcbs t).waitUntil
              = (s.tcbs t).waitUntil from by simp [updTcb]] at hwu
          have hnr : t ∉ s.ready := by
            intro hm
            have h5 := (hposr hm).2.2.2.2
            rw [h5] at hwu
            cases hwu
          exact ⟨htrR hnr, fun c => htrC c (hnc c)⟩
        case isFalse hwu =>
          have h1 : ((s.ready.erase t).Pairwise (fun a b => cmpReady s b a = false)) :=
            List.Pairwise.sublist (List.erase_sublist _ _) hrs
          have h2 : t ∉ s.ready.erase t := hndr.not_mem_erase
          have h3 := pairwise_cmp_updTcb_of_not_mem s t
            (fun b => { b with priority := p }) h2 h1
          have h4 := insertWhen_pairwise
            (cmpReady (updTcb s t (fun b => { b with priority := p })))
            (cmpReady_asymm _) (cmpReady_negtrans _) t h3
          have hs2r : ReadySorted
              { updTcb s t (fun b => { b with priority := p }) with
                ready := insertWhen
                  (cmpReady (updTcb s t (fun b => { b with priority := p }))) t
                  (((updTcb s t (fun b => { b with priority := p }))).ready.erase t) } := by
            unfold ReadySorted
            exact h4
          have hs2c : ∀ c, CvSorted
              { updTcb s t (fun b => { b with priority := p }) with
                ready := insertWhen
                  (cmpReady (updTcb s t (fun b => { b with priority := p }))) t
                  (((updTcb s t (fun b => { b with priority := p }))).ready.erase t) } c := by
            intro c
            have h8 := htrC c (hnc c)
            unfold CvSorted at h8 ⊢
            exact h8
          split
          · exact ⟨doSwitch_readySorted _ hs2r, fun c => doSwitch_cvSorted _ c (hs2c c)⟩
          · exact ⟨hs2r, hs2c⟩
  case isFalse hact =>
    have hact2 : (s.tcbs t).active ≠ true := by simpa [updTcb] using hact
    have hnr : t ∉ s.ready := fun hm => hact2 (hposr hm).1
    have hnc : ∀ c, t ∉ s.cvWaiting c := fun c hm => hact2 (hposc c hm).1
    exact ⟨htrR hnr, fun c => htrC c (hnc c)⟩

/-- In a sorted ready queue no task is strictly more important than the
head: the comparator never prefers another element over the front one. -/
theorem sorted_head_min (s : SchedState) (hd : TaskId) (tl : List TaskId)
    (hl : s.ready = hd :: tl) (hrs : ReadySorted s) (x : TaskId) (hx : x ∈ s.ready) :
    cmpReady s x hd = false := by
  unfold ReadySorted at hrs
  rw [hl] at hrs hx
  rcases List.mem_cons.mp hx with he | ht
  · subst he
    exact priorityIsLower_irrefl _
  · exact (List.pairwise_cons.mp hrs).1 x ht

/-- In a sorted ready queue, among equal-priority tasks the earlier element
was started no later than the later one (round-robin among peers). -/
theorem sorted_round_robin (s : SchedState) (hrs : ReadySorted s)
    (i j : Fin s.ready.length) (hij : i < j)
    (hp : (s.tcbs (s.ready.get i)).priority = (s.tcbs (s.ready.get j)).priority) :
    (s.tcbs (s.ready.get i)).lastStarted ≤ (s.tcbs (s.ready.get j)).lastStarted := by
  unfold ReadySorted at hrs
  have h := List.pairwise_iff_get.mp hrs i j hij
  simp only [cmpReady, priorityIsLower, hp] at h
  split_ifs at h <;> simp_all <;> omega

/-- C2.  Every insertion into the ready queue and into a condition
variable's waiting list — by `doSwitch`, `wakeUp`, the systick handler,
`TaskControlBlock::start` and `updatePriority` — goes through `insertWhen`
with the `priorityIsLower` comparator (numeric priority ascending,
`lastStarted` ascending on ties), so each of these operations preserves
sortedness of the ready queue and of every waiting list; in a sorted ready
queue no task is strictly more important than the head, and between two
equal-priority ready tasks the one with the older `lastStarted` sits
earlier, hence is dequeued first (round-robin among peers).
`updatePriority` additionally needs the placement invariants: a ready task
is active, not current or next, and waits on nothing; a CV-waiting task is
active, recorded as waiting on that condition variable, and not current or
next. -/
theorem ready_queue_ordering (s : SchedState) (t : TaskId) (p : Nat) (cv : CvId)
    (hrs : ReadySorted s) (hcv : ∀ c, CvSorted s c)
    (hndr : s.ready.Nodup) (hndc : ∀ c, (s.cvWaiting c).Nodup)
    (hposr : t ∈ s.ready → (s.tcbs t).active = true ∧ s.currentTask ≠ some t ∧
      s.nextTask ≠ some t ∧ (s.tcbs t).waiting = none ∧ (s.tcbs t).waitUntil = none)
    (hposc : ∀ c, t ∈ s.cvWaiting c → (s.tcbs t).active = true ∧
      (s.tcbs t).waiting = some c ∧ s.currentTask ≠ some t ∧ s.nextTask ≠ some t) :
    (ReadySorted (doSwitch s).1 ∧ ∀ c, CvSorted (doSwitch s).1 c) ∧
    (ReadySorted (wakeUp s t cv) ∧ ∀ c, CvSorted (wakeUp s t cv) c) ∧
    (ReadySorted (systickHandler s).1 ∧ ∀ c, CvSorted (systickHandler s).1 c) ∧
    (ReadySorted (taskStart s t).1 ∧ ∀ c, CvSorted (taskStart s t).1 c) ∧
    (ReadySorted (updatePriority s t p) ∧ ∀ c, CvSorted (updatePriority s t p) c) ∧
    (∀ (hd : TaskId) (tl : List TaskId), s.ready = hd :: tl →
      ∀ x ∈ s.ready, cmpReady s x hd = false) ∧
    (∀ i j : Fin s.ready.length, i < j →
      (s.tcbs (s.ready.get i)).priority = (s.tcbs (s.ready.get j)).priority →
      (s.tcbs (s.ready.get i)).lastStarted ≤ (s.tcbs (s.ready.get j)).lastStarted) := by
  refine ⟨⟨doSwitch_readySorted s hrs, fun c => doSwitch_cvSorted s c (hcv c)⟩,
    wakeUp_sorted s t cv hrs hcv,
    systick_sorted s hrs hcv,
    taskStart_sorted s t hrs hcv,
    updatePriority_sorted s t p hrs hcv hndr hndc hposr hposc,
    fun hd tl hl x hx => sorted_head_min s hd tl hl hrs x hx,
    fun i j hij hp => sorted_round_robin s hrs i j hij hp⟩

/-- The ordering theorem evaluated at a concrete two-task state. -/
theorem ready_queue_ordering_witness :
    (ReadySorted (doSwitch sC2).1 ∧ ∀ c, CvSorted (doSwitch sC2).1 c) ∧
    (ReadySorted (updatePriority sC2 1 3) ∧ ∀ c, CvSorted (updatePriority sC2 1 3) c) := by
  have h := ready_queue_ordering sC2 1 3 0 (by unfold ReadySorted; decide)
    (fun _ => List.Pairwise.nil)
    (by decide) (fun _ => List.nodup_nil) (by decide)
    (fun _ hm => absurd hm (List.not_mem_nil _))
  exact ⟨h.1, h.2.2.2.2.1⟩

end OpSy